import Mathlib

/-!
Verification of the RETE custodial token settlement layer.

The definitions below are a shallow embedding of the TypeScript source:
- `src/server/blockchain.ts` (key vault, authorization signer, chain gateway)
- `src/server/storage.ts` (storage layer)
- `src/server/routes.ts` (settlement orchestrator route handlers)

Machine numbers are modelled as `Int`/`Nat`; byte strings as `List (Fin 256)`;
JS strings as `String` or `List Char` where character-level behaviour matters.
The external blockchain is modelled as an explicit `ChainState` plus per-call
outcome oracles; the external AES-256-GCM primitive is an abstract
authenticated cipher carrying its defining round-trip property.
-/

namespace Rete

/-! ### Key Vault (src/server/blockchain.ts, encryptPrivateKey / decryptPrivateKey)

`encryptPrivateKey` emits `ivHex : tagHex : ctHex`; `decryptPrivateKey`
splits on `:`, requires exactly three fields, hex-decodes them and runs the
authenticated decryption, which throws when the authentication tag does not
verify.  AES-256-GCM itself is an external Node primitive; it is modelled as
an abstract authenticated cipher (`AeadCipher`) whose `dec_enc` field is the
defining property of authenticated encryption. -/

abbrev Byte := Fin 256

/-- Lower-case hex digit for a value below 16 (Node `Buffer.toString("hex")`). -/
def hexDigitChar (n : Nat) : Char :=
  if n < 10 then Char.ofNat (48 + n) else Char.ofNat (87 + n)

/-- Hex encoding of a byte string, two lower-case digits per byte. -/
def hexEncode (bs : List Byte) : List Char :=
  bs.foldr (fun b acc => hexDigitChar (b.val / 16) :: hexDigitChar (b.val % 16) :: acc) []

/-- Value of one hex digit (Node accepts both cases). -/
def hexVal (c : Char) : Option (Fin 16) :=
  if h : 48 ≤ c.toNat ∧ c.toNat ≤ 57 then some ⟨c.toNat - 48, by omega⟩
  else if h2 : 97 ≤ c.toNat ∧ c.toNat ≤ 102 then some ⟨c.toNat - 87, by omega⟩
  else if h3 : 65 ≤ c.toNat ∧ c.toNat ≤ 70 then some ⟨c.toNat - 55, by omega⟩
  else none

/-- Hex decoding as performed by `Buffer.from(s, "hex")`: consume digit pairs,
stop at the first malformed pair or dangling digit. -/
def hexDecode : List Char → List Byte
  | c1 :: c2 :: rest =>
    match hexVal c1, hexVal c2 with
    | some hi, some lo =>
      ⟨16 * hi.val + lo.val, by
        have h1 := hi.isLt
        have h2 := lo.isLt
        omega⟩ :: hexDecode rest
    | _, _ => []
  | _ => []

/-- JavaScript `String.prototype.split(sep)` for a one-character separator:
splits at every occurrence, keeping empty fields. -/
def jsSplit (sep : Char) : List Char → List (List Char)
  | [] => [[]]
  | c :: cs =>
    let rest := jsSplit sep cs
    if c = sep then [] :: rest
    else
      match rest with
      | [] => [[c]]
      | p :: ps => (c :: p) :: ps

/-- Abstract authenticated symmetric cipher with AES-256-GCM semantics
(the Node `crypto` primitive the key vault calls).  `enc key iv pt` returns
`(ciphertext, authTag)`; `dec` returns `none` exactly when authentication-tag
verification fails, in which case Node throws before any output is produced.
`dec_enc` is the defining round-trip property of the primitive. -/
structure AeadCipher where
  enc : List Byte → List Byte → List Byte → List Byte × List Byte
  dec : List Byte → List Byte → List Byte → List Byte → Option (List Byte)
  dec_enc : ∀ key iv pt, dec key iv (enc key iv pt).1 (enc key iv pt).2 = some pt

/-- `encryptPrivateKey` (blockchain.ts lines 53-63): fresh-IV authenticated
encryption, output `iv : authTag : ciphertext`, hex-encoded, colon-delimited.
The IV is an explicit argument standing for the `randomBytes(16)` draw. -/
def encryptPrivateKey (C : AeadCipher) (key iv privateKey : List Byte) : List Char :=
  let r := C.enc key iv privateKey
  hexEncode iv ++ ':' :: (hexEncode r.2 ++ ':' :: hexEncode r.1)

/-- `decryptPrivateKey` (blockchain.ts lines 65-84): split on `:`, require
exactly three fields, authenticated decryption; a failed tag check throws
(`Except.error`) and no plaintext is returned. -/
def decryptPrivateKey (C : AeadCipher) (key : List Byte) (encryptedData : List Char) :
    Except String (List Byte) :=
  let parts := jsSplit ':' encryptedData
  if parts.length = 3 then
    let iv := hexDecode (parts.getD 0 [])
    let authTag := hexDecode (parts.getD 1 [])
    let encrypted := hexDecode (parts.getD 2 [])
    match C.dec key iv encrypted authTag with
    | some pt => .ok pt
    | none => .error "Unsupported state or unable to authenticate data"
  else
    .error "Invalid encrypted data format"

/-- Trivial inhabitant of `AeadCipher`, used only to instantiate witnesses. -/
def idCipher : AeadCipher where
  enc := fun _ _ pt => (pt, [])
  dec := fun _ _ ct tag => if tag = [] then some ct else none
  dec_enc := fun _ _ _ => rfl

/-! ### Data model (src/server/storage.ts, @shared/schema)

Users, wallets, communities, products and settlement transactions, with the
storage operations the settlement routes use.  Database-generated transaction
ids are modelled by the counter `nextId`. -/

structure User where
  id : String
  email : String
  name : String
  role : String
  communityId : Option String
  ethAddress : String
  tokenBalance : Int
deriving DecidableEq

structure Wallet where
  id : String
  userId : String
  address : String
  isDefault : Nat
deriving DecidableEq

structure Community where
  id : String
  tokenAddress : Option String
deriving DecidableEq

structure Product where
  id : String
  name : String
  price : Int
  providerId : String
deriving DecidableEq

/-- A `SettlementTransaction` row (table `transactions`). -/
structure Txn where
  id : Nat
  type : String
  amount : Int
  description : String
  status : String
  txHash : Option String
  fromUserId : Option String
  toUserId : Option String
  productId : Option String
  communityId : Option String
deriving DecidableEq

/-- Insert payload for `createTransaction` (fields the routes pass). -/
structure InsertTxn where
  type : String
  amount : Int
  description : String
  status : String
  txHash : Option String
  fromUserId : Option String
  toUserId : Option String
  productId : Option String
  communityId : Option String
deriving DecidableEq

structure Storage where
  users : List User
  wallets : List Wallet
  communities : List Community
  products : List Product
  productCommunities : List (String × String)
  transactions : List Txn
  nextId : Nat
deriving DecidableEq

def getUser (st : Storage) (id : String) : Option User :=
  st.users.find? (fun u => u.id == id)

def getUserByEmail (st : Storage) (email : String) : Option User :=
  st.users.find? (fun u => u.email == email)

def getCommunity (st : Storage) (id : String) : Option Community :=
  st.communities.find? (fun c => c.id == id)

def getProduct (st : Storage) (id : String) : Option Product :=
  st.products.find? (fun p => p.id == id)

/-- `getDefaultWallet` (storage.ts 549-555). -/
def getDefaultWallet (st : Storage) (userId : String) : Option Wallet :=
  st.wallets.find? (fun w => w.userId == userId && w.isDefault == 1)

/-- `isProductAvailableInCommunity` (storage.ts 630-641). -/
def isProductAvailableInCommunity (st : Storage) (productId communityId : String) : Bool :=
  st.productCommunities.any (fun pc => pc.1 == productId && pc.2 == communityId)

/-- One user row under `updateUserBalance`: `tokenBalance + amount` when ids match. -/
def bumpBalance (userId : String) (amount : Int) (u : User) : User :=
  if u.id == userId then { u with tokenBalance := u.tokenBalance + amount } else u

/-- `updateUserBalance` (storage.ts 120-127): SQL increment of the cached balance. -/
def updateUserBalance (st : Storage) (userId : String) (amount : Int) : Storage :=
  { st with users := st.users.map (bumpBalance userId amount) }

/-- `createTransaction` (storage.ts 327-333): insert with DB-generated id. -/
def createTransaction (st : Storage) (ins : InsertTxn) : Txn × Storage :=
  let txn : Txn :=
    { id := st.nextId, type := ins.type, amount := ins.amount,
      description := ins.description, status := ins.status, txHash := ins.txHash,
      fromUserId := ins.fromUserId, toUserId := ins.toUserId,
      productId := ins.productId, communityId := ins.communityId }
  (txn, { st with transactions := st.transactions ++ [txn], nextId := st.nextId + 1 })

/-- One row under `updateTransactionStatus`: status always written, txHash only
when the optional argument is present (storage.ts 335-346). -/
def applyStatus (id : Nat) (status : String) (txHash : Option String) (t : Txn) : Txn :=
  if t.id == id then
    { t with status := status,
             txHash := (match txHash with | some h => some h | none => t.txHash) }
  else t

def updateTransactionStatus (st : Storage) (id : Nat) (status : String)
    (txHash : Option String) : Storage :=
  { st with transactions := st.transactions.map (applyStatus id status txHash) }

/-! ### Chain gateway and authorization signer (src/server/blockchain.ts)

The blockchain is external; reads are modelled by `ChainState`, the outcome of
each submitted write by an oracle value (`ChainOutcome` / `PermitOutcome`)
chosen adversarially. -/

structure ChainState where
  balanceOf : String → Int
  mintNonces : String → Nat
  burnNonces : String → Nat
  permitNonces : String → Nat

/-- Outcome of one submitted chain write: confirmation with a transaction
hash, or a `ChainError` carrying the underlying message. -/
inductive ChainOutcome where
  | ok (txHash : String)
  | err (msg : String)
deriving DecidableEq

/-- `parseAmount` (blockchain.ts 520-522) on the integral human amounts the
routes pass: scale by the token's on-chain decimals. -/
def parseAmount (amount : Int) (decimals : Nat) : Int :=
  amount * (10 : Int) ^ decimals

structure MintAuthorization where
  signer : String
  toAddr : String
  amount : Int
  nonce : Nat
  deadline : Nat
deriving DecidableEq

structure BurnAuthorization where
  signer : String
  fromAddr : String
  amount : Int
  nonce : Nat
  deadline : Nat
deriving DecidableEq

/-- The `{v, r, s, nonce, deadline}` payload returned by the signer, with the
opaque signature components elided. -/
structure AuthSignature where
  nonce : Nat
  deadline : Nat
deriving DecidableEq

/-- `signMintAuthorization` (blockchain.ts 744-790): read the contract's
current per-signer mint-nonce counter, embed it in the typed message, sign and
return it.  The source performs no write and no client-side nonce reservation,
so the embedding is a pure function of the chain state. -/
def signMintAuthorization (chain : ChainState) (walletAddress toAddr : String)
    (amountWei : Int) (deadline : Nat) : MintAuthorization × AuthSignature :=
  let nonce := chain.mintNonces walletAddress
  ({ signer := walletAddress, toAddr := toAddr, amount := amountWei,
     nonce := nonce, deadline := deadline },
   { nonce := nonce, deadline := deadline })

/-- `signBurnAuthorization` (blockchain.ts 792-837): same shape against the
separate per-signer burn-nonce counter. -/
def signBurnAuthorization (chain : ChainState) (walletAddress fromAddr : String)
    (amountWei : Int) (deadline : Nat) : BurnAuthorization × AuthSignature :=
  let nonce := chain.burnNonces walletAddress
  ({ signer := walletAddress, fromAddr := fromAddr, amount := amountWei,
     nonce := nonce, deadline := deadline },
   { nonce := nonce, deadline := deadline })

/-- Request body of the mint-with-sig / burn-with-sig endpoints.  `target` is
`to` for mint and `from` for burn; string fields are falsy when empty, numeric
fields when zero, `v` when absent, matching the handler's truthiness checks. -/
structure SigSubmitRequest where
  signer : String
  target : String
  amount : Int
  deadline : Int
  v : Option Int
  r : String
  s : String
deriving DecidableEq

inductive SigSubmitResponse where
  | badRequest (msg : String)
  | submitted (outcome : ChainOutcome)
deriving DecidableEq

/-- POST /api/blockchain/mint-with-sig (routes.ts 1418-1440): parameter
presence check, deadline-expiry check, deadline-window check, and only then
the chain submission. -/
def mintWithSigRoute (now : Int) (req : SigSubmitRequest) (submit : ChainOutcome) :
    SigSubmitResponse :=
  if req.signer == "" || req.target == "" || req.amount == 0 || req.deadline == 0
      || req.v == none || req.r == "" || req.s == "" then
    .badRequest "Parametri mancanti"
  else if req.deadline ≤ now then
    .badRequest "La firma e scaduta"
  else if now + 3600 < req.deadline then
    .badRequest "Deadline troppo lontana (max 1 ora)"
  else
    .submitted submit

/-- POST /api/blockchain/burn-with-sig (routes.ts 1442-1464): identical
validation, burn submission. -/
def burnWithSigRoute (now : Int) (req : SigSubmitRequest) (submit : ChainOutcome) :
    SigSubmitResponse :=
  if req.signer == "" || req.target == "" || req.amount == 0 || req.deadline == 0
      || req.v == none || req.r == "" || req.s == "" then
    .badRequest "Parametri mancanti"
  else if req.deadline ≤ now then
    .badRequest "La firma e scaduta"
  else if now + 3600 < req.deadline then
    .badRequest "Deadline troppo lontana (max 1 ora)"
  else
    .submitted submit

/-! ### Distribute flow (routes.ts 264-402, POST /api/tokens/distribute) -/

structure Distribution where
  email : String
  amount : Int
deriving DecidableEq

structure DistResult where
  email : String
  amount : Int
  userName : String
  txHash : String
deriving DecidableEq

structure DistError where
  email : String
  error : String
deriving DecidableEq

/-- The per-recipient loop of POST /api/tokens/distribute (routes.ts 295-392),
processed strictly sequentially with per-item isolation: lookup and membership
failures, and any chain failure, only append to the errors list and the loop
continues.  `oracle i` is the outcome of item `i`'s chain phase (decimals
read, mint-authorization signing, `mintWithSig` submission), which runs after
the pending record is created; a failure there leaves that record pending. -/
def distributeLoop (user : User) (oracle : Nat → ChainOutcome) :
    List Distribution → Nat → Storage → Storage × List DistResult × List DistError
  | [], _, st => (st, [], [])
  | dist :: rest, i, st =>
    match getUserByEmail st dist.email with
    | none =>
      let r := distributeLoop user oracle rest (i + 1) st
      (r.1, r.2.1, ⟨dist.email, "Utente non trovato"⟩ :: r.2.2)
    | some target =>
      if target.communityId ≠ user.communityId then
        let r := distributeLoop user oracle rest (i + 1) st
        (r.1, r.2.1, ⟨dist.email, "Utente non appartiene alla comunita"⟩ :: r.2.2)
      else
        let c := createTransaction st
          ⟨"receive", dist.amount, "Distribuzione da " ++ user.name, "pending",
           none, some user.id, some target.id, none, user.communityId⟩
        match oracle i with
        | .ok h =>
          let st2 := updateUserBalance c.2 target.id dist.amount
          let st3 := updateTransactionStatus st2 c.1.id "completed" (some h)
          let r := distributeLoop user oracle rest (i + 1) st3
          (r.1, ⟨dist.email, dist.amount, target.name, h⟩ :: r.2.1, r.2.2)
        | .err m =>
          let r := distributeLoop user oracle rest (i + 1) c.2
          (r.1, r.2.1, ⟨dist.email, "Errore blockchain: " ++ m⟩ :: r.2.2)

/-- POST /api/tokens/distribute (routes.ts 264-402): coordinator-role check,
community and community-token checks, coordinator custodial-wallet check,
request-schema check (every amount strictly positive), then the loop.  The
response is `{distributed, errors}`. -/
def distributeRoute (st : Storage) (sessionUserId : String)
    (distributions : List Distribution) (oracle : Nat → ChainOutcome) :
    Except (Nat × String) (List DistResult × List DistError) × Storage :=
  match getUser st sessionUserId with
  | none => (.error (403, "Solo i coordinatori possono distribuire token"), st)
  | some user =>
    if user.role ≠ "coordinator" then
      (.error (403, "Solo i coordinatori possono distribuire token"), st)
    else
      match user.communityId with
      | none => (.error (400, "Nessuna comunita associata"), st)
      | some communityId =>
        match getCommunity st communityId with
        | none => (.error (400, "La comunita non ha ancora un token"), st)
        | some community =>
          match community.tokenAddress with
          | none => (.error (400, "La comunita non ha ancora un token"), st)
          | some _ =>
            match getDefaultWallet st user.id with
            | none => (.error (400, "Wallet del coordinatore non trovato"), st)
            | some _ =>
              if distributions.all (fun d => decide (0 < d.amount)) then
                let r := distributeLoop user oracle distributions 0 st
                (.ok (r.2.1, r.2.2), r.1)
              else
                (.error (400, "Richiesta non valida"), st)

/-- Classification of one distribute item against a fixed storage snapshot:
the entry it contributes to `distributed` (left) or to `errors` (right).
Stated over the initial snapshot, it expresses that each item's outcome is
independent of the other items in the batch. -/
def itemResult (st : Storage) (user : User) (o : ChainOutcome) (d : Distribution) :
    DistResult ⊕ DistError :=
  match getUserByEmail st d.email with
  | none => .inr ⟨d.email, "Utente non trovato"⟩
  | some target =>
    if target.communityId ≠ user.communityId then
      .inr ⟨d.email, "Utente non appartiene alla comunita"⟩
    else
      match o with
      | .ok h => .inl ⟨d.email, d.amount, target.name, h⟩
      | .err m => .inr ⟨d.email, "Errore blockchain: " ++ m⟩

/-! ### Permit-based transfer gateway (blockchain.ts 899-941, permitTransfer) -/

/-- Outcome of the chain phase of a permit flow (token-config read, permit
nonce read and signing, permit submission, allowance read-back): either some
step raised a `ChainError`, or the permit was mined and the subsequent
allowance read returned `allowanceAfterPermit`.  The allowance is an external
chain read, so it is oracle-supplied. -/
inductive PermitOutcome where
  | chainErr (msg : String)
  | mined (allowanceAfterPermit : Int) (transferTx : String)

/-- On-chain `transferFrom`: move `amt` from `fromAddr` to `toAddr`. -/
def chainTransfer (chain : ChainState) (fromAddr toAddr : String) (amt : Int) : ChainState :=
  { chain with balanceOf := fun a =>
      chain.balanceOf a - (if a = fromAddr then amt else 0)
        + (if a = toAddr then amt else 0) }

/-- `permitTransfer` (blockchain.ts 899-941): submit the permit, require a
non-zero allowance, then `transferFrom` the LESSER of the requested value and
the granted allowance to the recipient.  Returns the amount actually sent on
chain, the transfer hash and the updated chain state. -/
def permitTransfer (chain : ChainState) (owner recipient : String) (value : Int)
    (o : PermitOutcome) : Except String (Int × String × ChainState) :=
  match o with
  | .chainErr m => .error m
  | .mined allowance ttx =>
    if allowance = 0 then .error "No allowance after permit"
    else
      let requested := value
      let sendAmount := if requested ≤ allowance then requested else allowance
      .ok (sendAmount, ttx, chainTransfer chain owner recipient sendAmount)

/-! ### Peer transfer flow (routes.ts 523-648, POST /api/tokens/transfer) -/

structure TransferResponse where
  transferred : Int
  txHash : String
  toName : String
deriving DecidableEq

/-- POST /api/tokens/transfer (routes.ts 523-648).  `d` is the token's
on-chain decimals.  Both cached balances are updated by the full requested
human amount after the chain phase; the transaction record is only created
after the chain transfer succeeds, already `completed` and carrying the hash.
A `ChainError` (or zero allowance) is caught by the route's catch block:
response 500 and no storage write at all. -/
def transferRoute (st : Storage) (chain : ChainState) (sessionUserId recipientId : String)
    (amount : Int) (note : String) (d : Nat) (o : PermitOutcome) :
    Except (Nat × String) TransferResponse × Storage × ChainState :=
  match getUser st sessionUserId with
  | none => (.error (401, "Non autenticato"), st, chain)
  | some sender =>
    if recipientId = "" ∨ amount ≤ 0 then (.error (400, "Dati non validi"), st, chain)
    else if sender.tokenBalance < amount then
      (.error (400, "Saldo insufficiente"), st, chain)
    else
      match getUser st recipientId with
      | none => (.error (400, "Destinatario non trovato"), st, chain)
      | some recipient =>
        if sender.communityId.isSome ∧ recipient.communityId.isSome
            ∧ sender.communityId ≠ recipient.communityId then
          (.error (400, "Trasferimento tra comunita diverse non permesso"), st, chain)
        else
          match (match sender.communityId with
                 | some c => some c
                 | none => recipient.communityId) with
          | none => (.error (400, "Nessuna comunita associata"), st, chain)
          | some communityId =>
            match getCommunity st communityId with
            | none => (.error (400, "La comunita non ha ancora un token"), st, chain)
            | some community =>
              match community.tokenAddress with
              | none => (.error (400, "La comunita non ha ancora un token"), st, chain)
              | some _ =>
                match getDefaultWallet st sender.id with
                | none => (.error (400, "Wallet del mittente non trovato"), st, chain)
                | some senderWallet =>
                  let amountWei := parseAmount amount d
                  match permitTransfer chain senderWallet.address recipient.ethAddress
                      amountWei o with
                  | .error m => (.error (500, "Errore nel trasferimento: " ++ m), st, chain)
                  | .ok (_, ttx, chain2) =>
                    let st1 := updateUserBalance st sender.id (-amount)
                    let st2 := updateUserBalance st1 recipient.id amount
                    let c := createTransaction st2
                      ⟨"send", amount,
                       (if note = "" then "Trasferimento a " ++ recipient.name else note),
                       "completed", some ttx, some sender.id, some recipient.id, none,
                       some communityId⟩
                    (.ok ⟨amount, ttx, recipient.name⟩, c.2, chain2)

/-! ### Marketplace purchase flow (routes.ts 984-1144, POST /api/purchase) -/

structure PurchaseResponse where
  newBalance : Option Int
  productName : String
  txHash : String
deriving DecidableEq

/-- POST /api/purchase (routes.ts 984-1144).  The pending record is created
before the chain phase; a `ChainError` is caught by the route's catch block,
which returns 500 and leaves the pending record in place, never marking it
failed.  Both cached balances move by the full product price. -/
def purchaseRoute (st : Storage) (chain : ChainState) (sessionUserId productId : String)
    (d : Nat) (o : PermitOutcome) :
    Except (Nat × String) PurchaseResponse × Storage × ChainState :=
  match getUser st sessionUserId with
  | none => (.error (404, "Utente non trovato"), st, chain)
  | some buyer =>
    match getProduct st productId with
    | none => (.error (404, "Prodotto non trovato"), st, chain)
    | some product =>
      if buyer.tokenBalance < product.price then
        (.error (400, "Saldo insufficiente"), st, chain)
      else
        match getUser st product.providerId with
        | none => (.error (400, "Provider non trovato"), st, chain)
        | some provider =>
          match buyer.communityId with
          | none => (.error (400, "Utente non associato a una comunita"), st, chain)
          | some communityId =>
            if !(isProductAvailableInCommunity st product.id communityId) then
              (.error (400, "Questo prodotto non e disponibile nella tua comunita"),
               st, chain)
            else
              match getCommunity st communityId with
              | none => (.error (400, "La comunita non ha ancora un token"), st, chain)
              | some community =>
                match community.tokenAddress with
                | none => (.error (400, "La comunita non ha ancora un token"), st, chain)
                | some _ =>
                  match getDefaultWallet st buyer.id with
                  | none => (.error (400, "Wallet acquirente non trovato"), st, chain)
                  | some buyerWallet =>
                    match getDefaultWallet st provider.id with
                    | none => (.error (400, "Wallet del venditore non trovato"), st, chain)
                    | some providerWallet =>
                      let c := createTransaction st
                        ⟨"purchase", product.price, "Acquisto: " ++ product.name,
                         "pending", none, some buyer.id, some product.providerId,
                         some product.id, some communityId⟩
                      let amountWei := parseAmount product.price d
                      match permitTransfer chain buyerWallet.address
                          providerWallet.address amountWei o with
                      | .error m => (.error (500, "Errore acquisto: " ++ m), c.2, chain)
                      | .ok (_, ttx, chain2) =>
                        let st1 := updateUserBalance c.2 buyer.id (-product.price)
                        let st2 := updateUserBalance st1 provider.id product.price
                        let st3 := updateTransactionStatus st2 c.1.id "completed" (some ttx)
                        (.ok ⟨(getUser st3 buyer.id).map (fun u => u.tokenBalance),
                              product.name, ttx⟩,
                         st3, chain2)

/-! ### Single burn flow (routes.ts 404-521, POST /api/tokens/burn) -/

structure BurnResponse where
  burned : Int
  txHash : String
deriving DecidableEq

/-- POST /api/tokens/burn (routes.ts 404-521): burns a given amount from the
coordinator's own balance or a named community member's.  A chain failure
after the pending record is created is caught by the route's catch (500),
leaving the record pending. -/
def burnRoute (st : Storage) (sessionUserId : String) (amount : Int)
    (description : String) (targetUserId : Option String) (o : ChainOutcome) :
    Except (Nat × String) BurnResponse × Storage :=
  match getUser st sessionUserId with
  | none => (.error (403, "Solo i coordinatori possono bruciare token"), st)
  | some user =>
    if user.role ≠ "coordinator" then
      (.error (403, "Solo i coordinatori possono bruciare token"), st)
    else if amount ≤ 0 then (.error (400, "Importo non valido"), st)
    else
      match user.communityId with
      | none => (.error (400, "Nessuna comunita associata"), st)
      | some cid =>
        match getCommunity st cid with
        | none => (.error (400, "La comunita non ha ancora un token"), st)
        | some community =>
          match community.tokenAddress with
          | none => (.error (400, "La comunita non ha ancora un token"), st)
          | some _ =>
            match getDefaultWallet st user.id with
            | none => (.error (400, "Wallet del coordinatore non trovato"), st)
            | some _ =>
              match (match targetUserId with
                     | none => some user
                     | some tid =>
                       match getUser st tid with
                       | none => none
                       | some t =>
                         if t.communityId ≠ user.communityId then none else some t) with
              | none =>
                (.error (400, "Utente non trovato o non appartiene alla comunita"), st)
              | some burnFromUser =>
                let c := createTransaction st
                  ⟨"burn", amount,
                   (if description = "" then "Burn token" else description),
                   "pending", none, some burnFromUser.id, none, none, some cid⟩
                match o with
                | .ok h =>
                  let st2 := updateUserBalance c.2 burnFromUser.id (-amount)
                  let st3 := updateTransactionStatus st2 c.1.id "completed" (some h)
                  (.ok ⟨amount, h⟩, st3)
                | .err m => (.error (500, "Errore nel burn: " ++ m), c.2)

/-! ### Community balances and burn-all (storage.ts 348-471, routes.ts 670-787) -/

structure BalanceRecord where
  id : String
  name : String
  email : String
  role : String
  tokenBalance : Int
  ethAddress : String
deriving DecidableEq

def mkBalanceRecord (u : User) (b : Int) : BalanceRecord :=
  ⟨u.id, u.name, u.email, u.role, b, u.ethAddress⟩

/-- Inner join of purchase transactions with products and their provider users
(storage.ts 363-380). -/
def providersWithSales (st : Storage) (cid : String) : List (User × Int) :=
  st.transactions.filterMap (fun t =>
    if t.communityId = some cid ∧ t.type = "purchase" then
      match t.productId with
      | some pid =>
        match st.products.find? (fun p => p.id == pid) with
        | some p =>
          match st.users.find? (fun u => u.id == p.providerId) with
          | some u => some (u, t.amount)
          | none => none
        | none => none
      | none => none
    else none)

/-- Burn transactions whose source user is a provider (storage.ts 382-395). -/
def providerBurns (st : Storage) (cid : String) : List (String × Int) :=
  st.transactions.filterMap (fun t =>
    if t.communityId = some cid ∧ t.type = "burn" then
      match t.fromUserId with
      | some fid =>
        match st.users.find? (fun u => u.id == fid) with
        | some u => if u.role = "provider" then some (fid, t.amount) else none
        | none => none
      | none => none
    else none)

/-- Insertion-ordered aggregation of provider sales (storage.ts 397-412). -/
def accumulateSale (acc : List BalanceRecord) (p : User × Int) : List BalanceRecord :=
  if acc.any (fun r => r.id == p.1.id) then
    acc.map (fun r =>
      if r.id == p.1.id then { r with tokenBalance := r.tokenBalance + p.2 } else r)
  else
    acc ++ [mkBalanceRecord p.1 p.2]

/-- Subtraction of provider burns from the aggregate (storage.ts 414-421). -/
def applyProviderBurn (acc : List BalanceRecord) (b : String × Int) : List BalanceRecord :=
  acc.map (fun r =>
    if r.id == b.1 then { r with tokenBalance := r.tokenBalance - b.2 } else r)

/-- Append a derived provider record only when the id is not already present
(storage.ts 432-436). -/
def appendIfAbsent (acc : List BalanceRecord) (p : BalanceRecord) : List BalanceRecord :=
  if acc.any (fun r => r.id == p.id) then acc else acc ++ [p]

/-- `getCommunityBalances` (storage.ts 348-439): stored balances of the
community's users, then derived provider balances appended when absent; only
strictly positive balances are returned. -/
def getCommunityBalances (st : Storage) (cid : String) : List BalanceRecord :=
  let communityUsers := st.users.filter (fun u => u.communityId == some cid)
  let providerBalances :=
    (providerBurns st cid).foldl applyProviderBurn
      ((providersWithSales st cid).foldl accumulateSale [])
  let base := communityUsers.map (fun u => mkBalanceRecord u u.tokenBalance)
  let allBalances := providerBalances.foldl appendIfAbsent base
  allBalances.filter (fun r => decide (r.tokenBalance > 0))

/-- One user row under the storage-level burn-all: `tokenBalance := 0`. -/
def zeroBalance (uid : String) (u : User) : User :=
  if u.id == uid then { u with tokenBalance := 0 } else u

/-- `burnAllCommunityTokens` (storage.ts 441-471): storage-level burn-all that
zeroes non-provider balances and inserts burn transactions with status
`completed` and NO chain transaction hash. -/
def burnAllCommunityTokens (st : Storage) (cid coordinatorId : String) :
    (Int × Nat) × Storage :=
  (getCommunityBalances st cid).foldl
    (fun acc b =>
      if b.tokenBalance > 0 then
        let st1 := if b.role ≠ "provider" then
            { acc.2 with users := acc.2.users.map (zeroBalance b.id) }
          else acc.2
        let c := createTransaction st1
          ⟨"burn", b.tokenBalance, "Burn completo - " ++ b.name, "completed",
           none, some b.id, some coordinatorId, none, some cid⟩
        ((acc.1.1 + b.tokenBalance, acc.1.2 + 1), c.2)
      else acc)
    ((0, 0), st)

structure BurnAllItem where
  name : String
  amount : Int
  txHash : String
deriving DecidableEq

structure BurnAllError where
  name : String
  error : String
deriving DecidableEq

structure BurnAllResponse where
  totalBurned : Int
  usersAffected : Nat
  results : List BurnAllItem
  errors : List BurnAllError
deriving DecidableEq

/-- Per-holder loop of POST /api/tokens/burn-all (routes.ts 700-780): for each
strictly positive balance, create a pending record, sign and submit the burn;
on success decrement the cached balance unless the holder is a provider
(provider balances are derived, not stored) and complete the record with the
returned hash; a chain failure only appends to the errors list and the
pending record stays. -/
def burnAllLoop (coordId cid : String) (oracle : Nat → ChainOutcome) :
    Nat → Storage → List BalanceRecord →
    Int × Nat × List BurnAllItem × List BurnAllError × Storage
  | _, st, [] => (0, 0, [], [], st)
  | i, st, b :: rest =>
    if b.tokenBalance > 0 then
      let c := createTransaction st
        ⟨"burn", b.tokenBalance, "Burn completo - " ++ b.name, "pending",
         none, some b.id, some coordId, none, some cid⟩
      match oracle i with
      | .ok h =>
        let st2 := if b.role ≠ "provider" then
            updateUserBalance c.2 b.id (-b.tokenBalance)
          else c.2
        let st3 := updateTransactionStatus st2 c.1.id "completed" (some h)
        let r := burnAllLoop coordId cid oracle (i + 1) st3 rest
        (b.tokenBalance + r.1, r.2.1 + 1, ⟨b.name, b.tokenBalance, h⟩ :: r.2.2.1,
         r.2.2.2.1, r.2.2.2.2)
      | .err m =>
        let r := burnAllLoop coordId cid oracle (i + 1) c.2 rest
        (r.1, r.2.1, r.2.2.1, ⟨b.name, m⟩ :: r.2.2.2.1, r.2.2.2.2)
    else
      burnAllLoop coordId cid oracle (i + 1) st rest

/-- POST /api/tokens/burn-all (routes.ts 670-787).  `cfgOk` models the token
config chain read that precedes the loop (failure → 500, nothing written). -/
def burnAllRoute (st : Storage) (sessionUserId : String) (cfgOk : Bool)
    (oracle : Nat → ChainOutcome) :
    Except (Nat × String) BurnAllResponse × Storage :=
  match getUser st sessionUserId with
  | none => (.error (403, "Solo i coordinatori possono eseguire il burn"), st)
  | some user =>
    if user.role ≠ "coordinator" then
      (.error (403, "Solo i coordinatori possono eseguire il burn"), st)
    else
      match user.communityId with
      | none => (.error (400, "Nessuna comunita associata"), st)
      | some cid =>
        match getCommunity st cid with
        | none => (.error (400, "La comunita non ha ancora un token"), st)
        | some community =>
          match community.tokenAddress with
          | none => (.error (400, "La comunita non ha ancora un token"), st)
          | some _ =>
            match getDefaultWallet st user.id with
            | none => (.error (400, "Wallet del coordinatore non trovato"), st)
            | some _ =>
              if cfgOk then
                let r := burnAllLoop user.id cid oracle 0 st (getCommunityBalances st cid)
                (.ok ⟨r.1, r.2.1, r.2.2.1, r.2.2.2.1⟩, r.2.2.2.2)
              else (.error (500, "Errore nel burn totale"), st)

/-- The spec's transaction-store invariant: every `SettlementTransaction` with
status `completed` carries a non-null chain transaction hash. -/
def CompletedHasHash (st : Storage) : Prop :=
  ∀ t ∈ st.transactions, t.status = "completed" → t.txHash ≠ none

/-- Net effect of one burn-all loop step on the user table: a non-provider
holder's cached balance is decremented by the entry's amount (provider
balances are derived and never written). -/
def applyBurn (users : List User) (e : BalanceRecord) : List User :=
  if e.role ≠ "provider" then users.map (bumpBalance e.id (-e.tokenBalance)) else users

/-- Net effect of the whole burn-all loop on the user table. -/
def applyBurns (users : List User) (L : List BalanceRecord) : List User :=
  L.foldl applyBurn users

/-- Concrete community for the burn-all example of the spec: a coordinator and
three holders with cached balances 300, 0 and 150. -/
def c5Storage : Storage :=
  ⟨[⟨"coord", "c@x", "Coord", "coordinator", some "c1", "0xc", 0⟩,
    ⟨"u1", "a@x", "Alice", "user", some "c1", "0xa", 300⟩,
    ⟨"u2", "b@x", "Bob", "user", some "c1", "0xb", 0⟩,
    ⟨"u3", "d@x", "Dana", "user", some "c1", "0xd", 150⟩],
   [⟨"w1", "coord", "0xc", 1⟩],
   [⟨"c1", some "0xT"⟩],
   [], [], [], 0⟩

end Rete

namespace Rete

theorem hexDigitChar_ne_colon (n : Fin 16) : hexDigitChar n.val ≠ ':' := by
  revert n
  decide

theorem colon_not_mem_hexEncode (bs : List Byte) : ':' ∉ hexEncode bs := by
  induction bs with
  | nil => simp [hexEncode]
  | cons b bs ih =>
    simp only [hexEncode, List.foldr_cons, List.mem_cons]
    push_neg
    refine ⟨?_, ?_, ?_⟩
    · exact fun h => hexDigitChar_ne_colon ⟨b.val / 16, by omega⟩ h.symm
    · exact fun h => hexDigitChar_ne_colon ⟨b.val % 16, by omega⟩ h.symm
    · simpa [hexEncode] using ih

theorem hexVal_hexDigitChar (n : Fin 16) : hexVal (hexDigitChar n.val) = some n := by
  revert n
  decide

theorem hexDecode_hexEncode (bs : List Byte) : hexDecode (hexEncode bs) = bs := by
  induction bs with
  | nil => rfl
  | cons b bs ih =>
    have hdiv : b.val / 16 < 16 := by omega
    have hmod : b.val % 16 < 16 := by omega
    have h1 := hexVal_hexDigitChar ⟨b.val / 16, hdiv⟩
    have h2 := hexVal_hexDigitChar ⟨b.val % 16, hmod⟩
    simp only [hexEncode, List.foldr_cons]
    show hexDecode (hexDigitChar (b.val / 16) :: hexDigitChar (b.val % 16) :: hexEncode bs) = b :: bs
    simp only [hexDecode, h1, h2]
    rw [ih]
    congr 1
    apply Fin.ext
    show 16 * (b.val / 16) + b.val % 16 = b.val
    omega

theorem jsSplit_ne_nil (sep : Char) (s : List Char) : jsSplit sep s ≠ [] := by
  cases s with
  | nil => simp [jsSplit]
  | cons c cs =>
    simp only [jsSplit]
    split
    · simp
    · cases jsSplit sep cs <;> simp

theorem jsSplit_no_sep (sep : Char) (s : List Char) (h : sep ∉ s) : jsSplit sep s = [s] := by
  induction s with
  | nil => rfl
  | cons c cs ih =>
    have hc : c ≠ sep := fun hcs => h (hcs ▸ List.mem_cons_self c cs)
    have hcs : sep ∉ cs := fun hm => h (List.mem_cons_of_mem _ hm)
    simp only [jsSplit, if_neg (fun hh => hc hh), ih hcs]

theorem jsSplit_append (sep : Char) (a rest : List Char) (h : sep ∉ a) :
    jsSplit sep (a ++ sep :: rest) = a :: jsSplit sep rest := by
  induction a with
  | nil => simp [jsSplit]
  | cons c cs ih =>
    have hc : c ≠ sep := fun hcs => h (hcs ▸ List.mem_cons_self c cs)
    have hcs : sep ∉ cs := fun hm => h (List.mem_cons_of_mem _ hm)
    simp only [List.cons_append, jsSplit, if_neg (fun hh => hc hh), List.append_eq, ih hcs]

theorem jsSplit_encrypt (C : AeadCipher) (key iv privateKey : List Byte) :
    jsSplit ':' (encryptPrivateKey C key iv privateKey)
      = [hexEncode iv, hexEncode (C.enc key iv privateKey).2,
         hexEncode (C.enc key iv privateKey).1] := by
  unfold encryptPrivateKey
  rw [jsSplit_append ':' _ _ (colon_not_mem_hexEncode iv),
      jsSplit_append ':' _ _ (colon_not_mem_hexEncode _),
      jsSplit_no_sep ':' _ (colon_not_mem_hexEncode _)]

/-- **C3.** For every valid private key `k`, decrypting the result of
encrypting `k` returns `k`: `decryptPrivateKey (encryptPrivateKey k) = k`,
for any of the fresh random initialization vectors encryption may draw
(the IV is universally quantified) and any authenticated cipher with the
AES-256-GCM round-trip semantics the key vault relies on. -/
theorem decrypt_encrypt_roundtrip (C : AeadCipher) (key iv privateKey : List Byte) :
    decryptPrivateKey C key (encryptPrivateKey C key iv privateKey) = .ok privateKey := by
  simp [decryptPrivateKey, jsSplit_encrypt C key iv privateKey,
    hexDecode_hexEncode, C.dec_enc]

/-- Closed instance of `decrypt_encrypt_roundtrip` at a concrete key, IV and
private key, with the cipher instantiated by `idCipher`. -/
theorem decrypt_encrypt_roundtrip_witness :
    decryptPrivateKey idCipher [⟨1, by omega⟩] (encryptPrivateKey idCipher [⟨1, by omega⟩]
      [⟨2, by omega⟩] [⟨3, by omega⟩]) = .ok [⟨3, by omega⟩] :=
  decrypt_encrypt_roundtrip idCipher [⟨1, by omega⟩] [⟨2, by omega⟩] [⟨3, by omega⟩]

/-- **C7.** `decryptPrivateKey` fails with an error (the `CryptoError` of the
spec) on every record that does not have exactly three colon-delimited fields,
and on every record whose authentication-tag verification fails; it returns a
plaintext only when the record has three fields and tag verification succeeds,
so it never returns partially-decrypted output. -/
theorem decrypt_failure_modes (C : AeadCipher) (key : List Byte) (record : List Char) :
    ((jsSplit ':' record).length ≠ 3 →
      decryptPrivateKey C key record = .error "Invalid encrypted data format") ∧
    ((jsSplit ':' record).length = 3 →
      C.dec key (hexDecode ((jsSplit ':' record).getD 0 []))
        (hexDecode ((jsSplit ':' record).getD 2 []))
        (hexDecode ((jsSplit ':' record).getD 1 [])) = none →
      decryptPrivateKey C key record
        = .error "Unsupported state or unable to authenticate data") ∧
    (∀ pt, decryptPrivateKey C key record = .ok pt →
      (jsSplit ':' record).length = 3 ∧
      C.dec key (hexDecode ((jsSplit ':' record).getD 0 []))
        (hexDecode ((jsSplit ':' record).getD 2 []))
        (hexDecode ((jsSplit ':' record).getD 1 [])) = some pt) := by
  refine ⟨?_, ?_, ?_⟩
  · intro hlen
    simp only [decryptPrivateKey, if_neg hlen]
  · intro hlen hdec
    simp only [decryptPrivateKey, if_pos hlen, hdec]
  · intro pt hok
    simp only [decryptPrivateKey] at hok
    by_cases hlen : (jsSplit ':' record).length = 3
    · rw [if_pos hlen] at hok
      refine ⟨hlen, ?_⟩
      cases hdec : C.dec key (hexDecode ((jsSplit ':' record).getD 0 []))
          (hexDecode ((jsSplit ':' record).getD 2 []))
          (hexDecode ((jsSplit ':' record).getD 1 [])) with
      | none => rw [hdec] at hok; simp at hok
      | some q => rw [hdec] at hok; injection hok with h; rw [← h]
    · rw [if_neg hlen] at hok
      simp at hok

/-- Closed instance of `decrypt_failure_modes`: a one-field record is rejected
as malformed, and a three-field record whose tag fails verification is
rejected by the authentication check. -/
theorem decrypt_failure_modes_witness :
    decryptPrivateKey idCipher [] ['a'] = .error "Invalid encrypted data format" ∧
    decryptPrivateKey idCipher [] ['a', ':', 'b', 'b', ':', 'c']
      = .error "Unsupported state or unable to authenticate data" :=
  ⟨(decrypt_failure_modes idCipher [] ['a']).1 (by decide),
   (decrypt_failure_modes idCipher [] ['a', ':', 'b', 'b', ':', 'c']).2.1
     (by decide) (by decide)⟩

/-- **C8.** Signing performs no client-side nonce reservation or mutation: the
nonce embedded in a returned mint or burn authorization equals the contract's
current per-signer counter for that nonce type at read time, so two sign
requests for the same (signer, nonce-type) evaluated against the same chain
state observe and return the same nonce value. -/
theorem sign_nonce_read_only (chain : ChainState) (w : String) :
    (∀ toA amountWei deadline,
      (signMintAuthorization chain w toA amountWei deadline).2.nonce
        = chain.mintNonces w ∧
      (signMintAuthorization chain w toA amountWei deadline).1.nonce
        = chain.mintNonces w) ∧
    (∀ fromAddr amountWei deadline,
      (signBurnAuthorization chain w fromAddr amountWei deadline).2.nonce
        = chain.burnNonces w ∧
      (signBurnAuthorization chain w fromAddr amountWei deadline).1.nonce
        = chain.burnNonces w) ∧
    (∀ to1 a1 d1 to2 a2 d2,
      (signMintAuthorization chain w to1 a1 d1).2.nonce
        = (signMintAuthorization chain w to2 a2 d2).2.nonce) ∧
    (∀ f1 a1 d1 f2 a2 d2,
      (signBurnAuthorization chain w f1 a1 d1).2.nonce
        = (signBurnAuthorization chain w f2 a2 d2).2.nonce) :=
  ⟨fun _ _ _ => ⟨rfl, rfl⟩, fun _ _ _ => ⟨rfl, rfl⟩,
   fun _ _ _ _ _ _ => rfl, fun _ _ _ _ _ _ => rfl⟩

/-- **C9.** Every mint-with-sig or burn-with-sig submission whose deadline is
already in the past (`deadline <= now`) is rejected by validation and the
chain submission is never attempted (the result is never `submitted`). -/
theorem expired_deadline_rejected (now : Int) (req : SigSubmitRequest)
    (h : req.deadline ≤ now) :
    (∀ submit, ∃ msg, mintWithSigRoute now req submit = .badRequest msg) ∧
    (∀ submit, ∃ msg, burnWithSigRoute now req submit = .badRequest msg) := by
  constructor
  all_goals intro submit
  · unfold mintWithSigRoute
    rw [if_pos h]
    split <;> exact ⟨_, rfl⟩
  · unfold burnWithSigRoute
    rw [if_pos h]
    split <;> exact ⟨_, rfl⟩

theorem find?_map_pred {α : Type} (f : α → α) (p : α → Bool)
    (hp : ∀ a, p (f a) = p a) (l : List α) :
    (l.map f).find? p = (l.find? p).map f := by
  induction l with
  | nil => rfl
  | cons a l ih =>
    simp only [List.map_cons]
    by_cases hpa : p a = true
    · rw [List.find?_cons_of_pos _ (by rw [hp a]; exact hpa),
          List.find?_cons_of_pos _ hpa]
      rfl
    · rw [List.find?_cons_of_neg _ (by rw [hp a]; simpa using hpa),
          List.find?_cons_of_neg _ (by simpa using hpa), ih]

theorem bumpBalance_id (uid : String) (amt : Int) (u : User) :
    (bumpBalance uid amt u).id = u.id := by
  unfold bumpBalance; split <;> rfl

theorem bumpBalance_email (uid : String) (amt : Int) (u : User) :
    (bumpBalance uid amt u).email = u.email := by
  unfold bumpBalance; split <;> rfl

theorem bumpBalance_name (uid : String) (amt : Int) (u : User) :
    (bumpBalance uid amt u).name = u.name := by
  unfold bumpBalance; split <;> rfl

theorem bumpBalance_role (uid : String) (amt : Int) (u : User) :
    (bumpBalance uid amt u).role = u.role := by
  unfold bumpBalance; split <;> rfl

theorem bumpBalance_communityId (uid : String) (amt : Int) (u : User) :
    (bumpBalance uid amt u).communityId = u.communityId := by
  unfold bumpBalance; split <;> rfl

theorem bumpBalance_eq_self (uid : String) (amt : Int) (u : User) (h : u.id = uid) :
    bumpBalance uid amt u = { u with tokenBalance := u.tokenBalance + amt } := by
  simp [bumpBalance, h]

theorem bumpBalance_ne_self (uid : String) (amt : Int) (u : User) (h : u.id ≠ uid) :
    bumpBalance uid amt u = u := by
  simp [bumpBalance, h]

theorem getUserByEmail_updateUserBalance (st : Storage) (uid : String) (amt : Int)
    (e : String) :
    getUserByEmail (updateUserBalance st uid amt) e
      = (getUserByEmail st e).map (bumpBalance uid amt) :=
  find?_map_pred _ _ (fun u => by rw [bumpBalance_email]) _

theorem getUser_updateUserBalance (st : Storage) (uid : String) (amt : Int)
    (x : String) :
    getUser (updateUserBalance st uid amt) x
      = (getUser st x).map (bumpBalance uid amt) :=
  find?_map_pred _ _ (fun u => by rw [bumpBalance_id]) _

theorem getUserByEmail_createTransaction (st : Storage) (ins : InsertTxn) (e : String) :
    getUserByEmail (createTransaction st ins).2 e = getUserByEmail st e := rfl

theorem getUserByEmail_updateTransactionStatus (st : Storage) (i : Nat) (s : String)
    (hh : Option String) (e : String) :
    getUserByEmail (updateTransactionStatus st i s hh) e = getUserByEmail st e := rfl

theorem getUser_createTransaction (st : Storage) (ins : InsertTxn) (x : String) :
    getUser (createTransaction st ins).2 x = getUser st x := rfl

theorem getUser_updateTransactionStatus (st : Storage) (i : Nat) (s : String)
    (hh : Option String) (x : String) :
    getUser (updateTransactionStatus st i s hh) x = getUser st x := rfl

theorem applyStatus_id (i : Nat) (s : String) (hh : Option String) (t : Txn) :
    (applyStatus i s hh t).id = t.id := by
  unfold applyStatus; split <;> rfl

theorem itemResult_updateUserBalance (st : Storage) (uid : String) (amt : Int)
    (user : User) (o : ChainOutcome) (d : Distribution) :
    itemResult (updateUserBalance st uid amt) user o d = itemResult st user o d := by
  unfold itemResult
  rw [getUserByEmail_updateUserBalance]
  cases getUserByEmail st d.email with
  | none => rfl
  | some target =>
    simp only [Option.map_some', bumpBalance_communityId, bumpBalance_name]

theorem itemResult_updateTransactionStatus (st : Storage) (i : Nat) (s : String)
    (hh : Option String) (user : User) (o : ChainOutcome) (d : Distribution) :
    itemResult (updateTransactionStatus st i s hh) user o d = itemResult st user o d := rfl

theorem itemResult_createTransaction (st : Storage) (ins : InsertTxn)
    (user : User) (o : ChainOutcome) (d : Distribution) :
    itemResult (createTransaction st ins).2 user o d = itemResult st user o d := rfl

/-- The distribute loop's `distributed` and `errors` lists are the per-item
classifications of each batch entry against the initial storage snapshot:
each item's outcome depends only on its own entry and its own chain outcome. -/
theorem distributeLoop_results (user : User) (oracle : Nat → ChainOutcome)
    (ds : List Distribution) : ∀ (i : Nat) (st : Storage),
    (distributeLoop user oracle ds i st).2.1
      = (List.enumFrom i ds).filterMap
          (fun p => (itemResult st user (oracle p.1) p.2).getLeft?) ∧
    (distributeLoop user oracle ds i st).2.2
      = (List.enumFrom i ds).filterMap
          (fun p => (itemResult st user (oracle p.1) p.2).getRight?) := by
  induction ds with
  | nil => intro i st; exact ⟨rfl, rfl⟩
  | cons d rest ih =>
    intro i st
    have key : ∀ st', (∀ o' d', itemResult st' user o' d' = itemResult st user o' d') →
        (distributeLoop user oracle rest (i + 1) st').2.1
          = (List.enumFrom (i + 1) rest).filterMap
              (fun p => (itemResult st user (oracle p.1) p.2).getLeft?) ∧
        (distributeLoop user oracle rest (i + 1) st').2.2
          = (List.enumFrom (i + 1) rest).filterMap
              (fun p => (itemResult st user (oracle p.1) p.2).getRight?) := by
      intro st' hst'
      have hL : (fun p : Nat × Distribution =>
            (itemResult st' user (oracle p.1) p.2).getLeft?)
          = fun p => (itemResult st user (oracle p.1) p.2).getLeft? :=
        funext fun p => by rw [hst']
      have hR : (fun p : Nat × Distribution =>
            (itemResult st' user (oracle p.1) p.2).getRight?)
          = fun p => (itemResult st user (oracle p.1) p.2).getRight? :=
        funext fun p => by rw [hst']
      exact ⟨by rw [(ih (i + 1) st').1, hL], by rw [(ih (i + 1) st').2, hR]⟩
    have key3 : ∀ ins uid amt j s2 hh2,
        (distributeLoop user oracle rest (i + 1)
            (updateTransactionStatus (updateUserBalance (createTransaction st ins).2 uid amt)
              j s2 hh2)).2.1
          = (List.enumFrom (i + 1) rest).filterMap
              (fun p => (itemResult st user (oracle p.1) p.2).getLeft?) ∧
        (distributeLoop user oracle rest (i + 1)
            (updateTransactionStatus (updateUserBalance (createTransaction st ins).2 uid amt)
              j s2 hh2)).2.2
          = (List.enumFrom (i + 1) rest).filterMap
              (fun p => (itemResult st user (oracle p.1) p.2).getRight?) := by
      intro ins uid amt j s2 hh2
      exact key _ (fun o' d' => by
        rw [itemResult_updateTransactionStatus, itemResult_updateUserBalance,
            itemResult_createTransaction])
    have key2 : ∀ ins,
        (distributeLoop user oracle rest (i + 1) (createTransaction st ins).2).2.1
          = (List.enumFrom (i + 1) rest).filterMap
              (fun p => (itemResult st user (oracle p.1) p.2).getLeft?) ∧
        (distributeLoop user oracle rest (i + 1) (createTransaction st ins).2).2.2
          = (List.enumFrom (i + 1) rest).filterMap
              (fun p => (itemResult st user (oracle p.1) p.2).getRight?) :=
      fun ins => key _ (fun o' d' => itemResult_createTransaction st ins user o' d')
    rw [show List.enumFrom i (d :: rest) = (i, d) :: List.enumFrom (i + 1) rest from rfl,
        List.filterMap_cons, List.filterMap_cons]
    cases hA : getUserByEmail st d.email with
    | none =>
      have hhead : itemResult st user (oracle i) d
          = Sum.inr ⟨d.email, "Utente non trovato"⟩ := by
        simp [itemResult, hA]
      simp only [distributeLoop, hA, hhead, Sum.getLeft?_inr, Sum.getRight?_inr]
      exact ⟨(key st fun _ _ => rfl).1, by rw [(key st fun _ _ => rfl).2]⟩
    | some target =>
      by_cases hmem : target.communityId ≠ user.communityId
      · have hhead : itemResult st user (oracle i) d
            = Sum.inr ⟨d.email, "Utente non appartiene alla comunita"⟩ := by
          simp [itemResult, hA, hmem]
        simp only [distributeLoop, hA, hhead, Sum.getLeft?_inr, Sum.getRight?_inr]
        rw [if_pos hmem]
        exact ⟨(key st fun _ _ => rfl).1, by rw [(key st fun _ _ => rfl).2]⟩
      · cases ho : oracle i with
        | ok h =>
          have hhead : itemResult st user (ChainOutcome.ok h) d
              = Sum.inl ⟨d.email, d.amount, target.name, h⟩ := by
            simp [itemResult, hA, hmem]
          simp only [distributeLoop, hA, ho, hhead, Sum.getLeft?_inl, Sum.getRight?_inl]
          rw [if_neg hmem]
          have hk := key3
            ⟨"receive", d.amount, "Distribuzione da " ++ user.name, "pending",
             none, some user.id, some target.id, none, user.communityId⟩
            target.id d.amount
            (createTransaction st
              ⟨"receive", d.amount, "Distribuzione da " ++ user.name, "pending",
               none, some user.id, some target.id, none, user.communityId⟩).1.id
            "completed" (some h)
          exact ⟨congrArg (List.cons ⟨d.email, d.amount, target.name, h⟩) hk.1, hk.2⟩
        | err m =>
          have hhead : itemResult st user (ChainOutcome.err m) d
              = Sum.inr ⟨d.email, "Errore blockchain: " ++ m⟩ := by
            simp [itemResult, hA, hmem]
          simp only [distributeLoop, hA, ho, hhead, Sum.getLeft?_inr, Sum.getRight?_inr]
          rw [if_neg hmem]
          have hk := key2
            ⟨"receive", d.amount, "Distribuzione da " ++ user.name, "pending",
             none, some user.id, some target.id, none, user.communityId⟩
          exact ⟨hk.1, congrArg (List.cons ⟨d.email, "Errore blockchain: " ++ m⟩) hk.2⟩

theorem expired_deadline_rejected_witness :
    (∃ msg, mintWithSigRoute 100 ⟨"0xs", "0xt", 5, 50, some 27, "r", "s"⟩ (.ok "h")
      = .badRequest msg) ∧
    (∃ msg, burnWithSigRoute 100 ⟨"0xs", "0xt", 5, 50, some 27, "r", "s"⟩ (.ok "h")
      = .badRequest msg) :=
  ⟨(expired_deadline_rejected 100 ⟨"0xs", "0xt", 5, 50, some 27, "r", "s"⟩
      (by decide)).1 (.ok "h"),
   (expired_deadline_rejected 100 ⟨"0xs", "0xt", 5, 50, some 27, "r", "s"⟩
      (by decide)).2 (.ok "h")⟩


/-- **C4.** In a distribute batch, each item is isolated: the `distributed`
and `errors` lists are the per-item classifications of each entry (recipient
not found, not a community member, or the item's own chain outcome) against
the initial snapshot, so a failure for one recipient leaves the processing of
the remaining recipients unchanged; in particular, for the batch
`[{alice,100}, {unknown@x,50}, {bob,75}]` where `unknown@x` does not exist,
`distributed` contains alice's and bob's entries with hashes and `errors`
contains exactly one entry, for `unknown@x`. -/
theorem distribute_batch_isolation :
    (∀ (user : User) (oracle : Nat → ChainOutcome) (ds : List Distribution)
        (i : Nat) (st : Storage),
      (distributeLoop user oracle ds i st).2.1
        = (List.enumFrom i ds).filterMap
            (fun p => (itemResult st user (oracle p.1) p.2).getLeft?) ∧
      (distributeLoop user oracle ds i st).2.2
        = (List.enumFrom i ds).filterMap
            (fun p => (itemResult st user (oracle p.1) p.2).getRight?)) ∧
    (distributeRoute
        ⟨[⟨"u0", "coord@x", "Coo", "coordinator", some "c1", "0xc", 0⟩,
          ⟨"u1", "alice", "Alice", "user", some "c1", "0xa", 0⟩,
          ⟨"u2", "bob", "Bob", "user", some "c1", "0xb", 0⟩],
         [⟨"w0", "u0", "0xw", 1⟩], [⟨"c1", some "0xt"⟩], [], [], [], 0⟩
        "u0" [⟨"alice", 100⟩, ⟨"unknown@x", 50⟩, ⟨"bob", 75⟩]
        (fun _ => .ok "0xhash")).1
      = .ok ([⟨"alice", 100, "Alice", "0xhash"⟩, ⟨"bob", 75, "Bob", "0xhash"⟩],
             [⟨"unknown@x", "Utente non trovato"⟩]) :=
  ⟨fun user oracle ds i st => distributeLoop_results user oracle ds i st, by rfl⟩

/-- **C1.** A single-recipient distribute request in which the chain mint
submission succeeds increments the recipient's cached token balance by exactly
the distributed amount (`balance_after = balance_before + X`), and the
transaction record created for that item ends with status `completed` and a
non-null chain transaction hash. -/
theorem distribute_single_mint_success
    (st : Storage) (sid email : String) (X : Int) (h : String)
    (user A : User) (cid : String) (community : Community) (w : Wallet)
    (oracle : Nat → ChainOutcome)
    (hu : getUser st sid = some user) (hrole : user.role = "coordinator")
    (hcid : user.communityId = some cid)
    (hcom : getCommunity st cid = some community)
    (hta : community.tokenAddress.isSome = true)
    (hw : getDefaultWallet st user.id = some w)
    (hA : getUserByEmail st email = some A)
    (hmem : A.communityId = user.communityId)
    (hX : 0 < X)
    (ho : oracle 0 = .ok h)
    (hfresh : ∀ t ∈ st.transactions, t.id < st.nextId) :
    ∃ st',
      distributeRoute st sid [⟨email, X⟩] oracle
        = (.ok ([⟨email, X, A.name, h⟩], []), st') ∧
      getUserByEmail st' email = some { A with tokenBalance := A.tokenBalance + X } ∧
      (∃ t ∈ st'.transactions, t.id = st.nextId) ∧
      (∀ t ∈ st'.transactions, t.id = st.nextId →
        t.status = "completed" ∧ t.txHash = some h) := by
  obtain ⟨ta, hta2⟩ := Option.isSome_iff_exists.mp hta
  have hroute : distributeRoute st sid [⟨email, X⟩] oracle
      = (.ok ([⟨email, X, A.name, h⟩], []),
         updateTransactionStatus
           (updateUserBalance
             (createTransaction st
               ⟨"receive", X, "Distribuzione da " ++ user.name, "pending",
                none, some user.id, some A.id, none, user.communityId⟩).2
             A.id X)
           (createTransaction st
             ⟨"receive", X, "Distribuzione da " ++ user.name, "pending",
              none, some user.id, some A.id, none, user.communityId⟩).1.id
           "completed" (some h)) := by
    simp only [distributeRoute, hu]
    rw [if_neg (by simp [hrole])]
    simp only [hcid, hcom, hta2, hw]
    rw [if_pos (by simp [hX])]
    simp only [distributeLoop, hA, ho]
    rw [if_neg (by rw [hmem]; simp)]
    simp only [hcid]
  have htr : (updateTransactionStatus
        (updateUserBalance
          (createTransaction st
            ⟨"receive", X, "Distribuzione da " ++ user.name, "pending",
             none, some user.id, some A.id, none, user.communityId⟩).2
          A.id X)
        (createTransaction st
          ⟨"receive", X, "Distribuzione da " ++ user.name, "pending",
           none, some user.id, some A.id, none, user.communityId⟩).1.id
        "completed" (some h)).transactions
      = (st.transactions
          ++ [(createTransaction st
                ⟨"receive", X, "Distribuzione da " ++ user.name, "pending",
                 none, some user.id, some A.id, none, user.communityId⟩).1]).map
          (applyStatus
            (createTransaction st
              ⟨"receive", X, "Distribuzione da " ++ user.name, "pending",
               none, some user.id, some A.id, none, user.communityId⟩).1.id
            "completed" (some h)) := rfl
  refine ⟨_, hroute, ?_, ?_, ?_⟩
  · rw [getUserByEmail_updateTransactionStatus, getUserByEmail_updateUserBalance,
        getUserByEmail_createTransaction, hA]
    simp [bumpBalance]
  · rw [htr]
    refine ⟨applyStatus
        (createTransaction st
          ⟨"receive", X, "Distribuzione da " ++ user.name, "pending",
           none, some user.id, some A.id, none, user.communityId⟩).1.id
        "completed" (some h)
        (createTransaction st
          ⟨"receive", X, "Distribuzione da " ++ user.name, "pending",
           none, some user.id, some A.id, none, user.communityId⟩).1, ?_, ?_⟩
    · exact List.mem_map_of_mem _
        (List.mem_append_right _ (List.mem_singleton_self _))
    · rw [applyStatus_id]
      exact rfl
  · intro t ht hid
    rw [htr] at ht
    obtain ⟨t0, ht0, rfl⟩ := List.mem_map.mp ht
    rcases List.mem_append.mp ht0 with hold | hnew
    · exfalso
      have hlt := hfresh t0 hold
      rw [applyStatus_id] at hid
      have : t0.id = st.nextId := hid
      omega
    · have ht0e : t0 = (createTransaction st
          ⟨"receive", X, "Distribuzione da " ++ user.name, "pending",
           none, some user.id, some A.id, none, user.communityId⟩).1 := by
        simpa using hnew
      subst ht0e
      constructor <;> simp [applyStatus, createTransaction]

/-- Closed instance of `distribute_single_mint_success`: distributing 100 to
alice (initial cached balance 7) with a successful mint yields balance 107 and
a completed transaction carrying hash `0xh`. -/
theorem distribute_single_mint_success_witness :
    ∃ st',
      distributeRoute
          ⟨[⟨"u0", "co", "Co", "coordinator", some "c1", "0xc", 0⟩,
            ⟨"u1", "alice", "Alice", "user", some "c1", "0xa", 7⟩],
           [⟨"w0", "u0", "0xw", 1⟩], [⟨"c1", some "0xt"⟩], [], [], [], 0⟩
          "u0" [⟨"alice", 100⟩] (fun _ => .ok "0xh")
        = (.ok ([⟨"alice", 100, "Alice", "0xh"⟩], []), st') ∧
      getUserByEmail st' "alice"
        = some ⟨"u1", "alice", "Alice", "user", some "c1", "0xa", 7 + 100⟩ ∧
      (∃ t ∈ st'.transactions, t.id = 0) ∧
      (∀ t ∈ st'.transactions, t.id = 0 →
        t.status = "completed" ∧ t.txHash = some "0xh") :=
  distribute_single_mint_success
    ⟨[⟨"u0", "co", "Co", "coordinator", some "c1", "0xc", 0⟩,
      ⟨"u1", "alice", "Alice", "user", some "c1", "0xa", 7⟩],
     [⟨"w0", "u0", "0xw", 1⟩], [⟨"c1", some "0xt"⟩], [], [], [], 0⟩
    "u0" "alice" 100 "0xh"
    ⟨"u0", "co", "Co", "coordinator", some "c1", "0xc", 0⟩
    ⟨"u1", "alice", "Alice", "user", some "c1", "0xa", 7⟩
    "c1" ⟨"c1", some "0xt"⟩ ⟨"w0", "u0", "0xw", 1⟩ (fun _ => .ok "0xh")
    rfl rfl rfl rfl rfl rfl rfl rfl (by decide) rfl (by simp)


/-- **C6 (counterexample).** In the peer-transfer flow, no transaction record
is created before the chain call at all: a concrete transfer that passes every
validation and then hits a `ChainError` returns the chain failure (500) while
the resulting storage contains NO transaction record, in particular no pending
one — contradicting the claim that a record created `pending` before the chain
call remains. -/
theorem transfer_chain_error_no_pending_record :
    (transferRoute
        ⟨[⟨"s", "s@x", "S", "user", some "c1", "0xs", 50⟩,
          ⟨"r", "r@x", "R", "user", some "c1", "0xr", 0⟩],
         [⟨"w1", "s", "0xws", 1⟩], [⟨"c1", some "0xt"⟩], [], [], [], 0⟩
        ⟨fun _ => 0, fun _ => 0, fun _ => 0, fun _ => 0⟩
        "s" "r" 5 "" 2 (.chainErr "boom")).1
      = .error (500, "Errore nel trasferimento: boom") ∧
    ¬ ∃ t ∈ (transferRoute
        ⟨[⟨"s", "s@x", "S", "user", some "c1", "0xs", 50⟩,
          ⟨"r", "r@x", "R", "user", some "c1", "0xr", 0⟩],
         [⟨"w1", "s", "0xws", 1⟩], [⟨"c1", some "0xt"⟩], [], [], [], 0⟩
        ⟨fun _ => 0, fun _ => 0, fun _ => 0, fun _ => 0⟩
        "s" "r" 5 "" 2 (.chainErr "boom")).2.1.transactions,
      t.status = "pending" := by
  refine ⟨rfl, ?_⟩
  rintro ⟨t, ht, -⟩
  exact List.not_mem_nil t ht

/-- **C6 (amended).** A `ChainError` in a single-item flow aborts the whole
request with no cached-ledger mutation.  In the peer transfer the storage is
completely unchanged — no transaction record exists because the flow only
creates its (already `completed`) record after the chain call succeeds.  In
the marketplace purchase the user balances are unchanged and the transaction
store either is unchanged (validation failed before the record was created) or
has exactly the one new record, still `pending` with a null hash — never
transitioned to a failure state. -/
theorem chain_error_abort_behavior :
    (∀ (st : Storage) (chain : ChainState) (sid rid : String) (amount : Int)
        (note : String) (d : Nat) (m : String),
      (transferRoute st chain sid rid amount note d (.chainErr m)).2.1 = st ∧
      (transferRoute st chain sid rid amount note d (.chainErr m)).2.2 = chain) ∧
    (∀ (st : Storage) (chain : ChainState) (sid pid : String) (d : Nat) (m : String),
      (purchaseRoute st chain sid pid d (.chainErr m)).2.1.users = st.users ∧
      (purchaseRoute st chain sid pid d (.chainErr m)).2.2 = chain ∧
      ((purchaseRoute st chain sid pid d (.chainErr m)).2.1.transactions
          = st.transactions ∨
       ∃ p, (purchaseRoute st chain sid pid d (.chainErr m)).2.1.transactions
             = st.transactions ++ [p] ∧ p.status = "pending" ∧ p.txHash = none)) := by
  constructor
  · intro st chain sid rid amount note d m
    unfold transferRoute
    simp only [permitTransfer]
    repeat' split
    all_goals exact ⟨rfl, rfl⟩
  · intro st chain sid pid d m
    unfold purchaseRoute
    simp only [permitTransfer]
    repeat' split
    all_goals
      first
        | exact ⟨rfl, rfl, Or.inl rfl⟩
        | exact ⟨rfl, rfl, Or.inr ⟨_, rfl, rfl, rfl⟩⟩


/-- **C10.** In peer transfer and marketplace purchase the cached ledger is
debited from the sender/buyer and credited to the recipient/provider by the
FULL requested (product price) amount, while the on-chain transfer moves only
the lesser of the requested wei amount and the granted allowance; so whenever
the granted allowance is positive but smaller than the requested wei amount,
the on-chain balances move by the allowance while the cached balances move by
the full human amount — the two ledgers diverge by the difference. -/
theorem cached_vs_chain_divergence :
    (∀ (st : Storage) (chain : ChainState) (sid rid : String) (amount : Int)
        (note : String) (d : Nat) (allowance : Int) (ttx : String)
        (sender recipient : User) (cid : String) (community : Community) (w : Wallet),
      getUser st sid = some sender →
      rid ≠ "" → 0 < amount →
      ¬ sender.tokenBalance < amount →
      getUser st rid = some recipient →
      ¬(sender.communityId.isSome ∧ recipient.communityId.isSome
          ∧ sender.communityId ≠ recipient.communityId) →
      (match sender.communityId with
       | some c => some c
       | none => recipient.communityId) = some cid →
      getCommunity st cid = some community →
      community.tokenAddress.isSome = true →
      getDefaultWallet st sender.id = some w →
      0 < allowance → allowance < parseAmount amount d →
      sender.id ≠ recipient.id → w.address ≠ recipient.ethAddress →
      (transferRoute st chain sid rid amount note d (.mined allowance ttx)).1
          = .ok ⟨amount, ttx, recipient.name⟩ ∧
      getUser (transferRoute st chain sid rid amount note d (.mined allowance ttx)).2.1 sid
          = some { sender with tokenBalance := sender.tokenBalance - amount } ∧
      getUser (transferRoute st chain sid rid amount note d (.mined allowance ttx)).2.1 rid
          = some { recipient with tokenBalance := recipient.tokenBalance + amount } ∧
      (transferRoute st chain sid rid amount note d (.mined allowance ttx)).2.2.balanceOf
            w.address
          = chain.balanceOf w.address - allowance ∧
      (transferRoute st chain sid rid amount note d (.mined allowance ttx)).2.2.balanceOf
            recipient.ethAddress
          = chain.balanceOf recipient.ethAddress + allowance) ∧
    (∀ (st : Storage) (chain : ChainState) (sid pid : String) (d : Nat)
        (allowance : Int) (ttx : String)
        (buyer provider : User) (product : Product) (cid : String)
        (community : Community) (bw pw : Wallet),
      getUser st sid = some buyer →
      getProduct st pid = some product →
      ¬ buyer.tokenBalance < product.price →
      getUser st product.providerId = some provider →
      buyer.communityId = some cid →
      isProductAvailableInCommunity st product.id cid = true →
      getCommunity st cid = some community →
      community.tokenAddress.isSome = true →
      getDefaultWallet st buyer.id = some bw →
      getDefaultWallet st provider.id = some pw →
      0 < allowance → allowance < parseAmount product.price d →
      buyer.id ≠ provider.id → bw.address ≠ pw.address →
      getUser (purchaseRoute st chain sid pid d (.mined allowance ttx)).2.1 sid
          = some { buyer with tokenBalance := buyer.tokenBalance - product.price } ∧
      getUser (purchaseRoute st chain sid pid d (.mined allowance ttx)).2.1 provider.id
          = some { provider with tokenBalance := provider.tokenBalance + product.price } ∧
      (purchaseRoute st chain sid pid d (.mined allowance ttx)).2.2.balanceOf bw.address
          = chain.balanceOf bw.address - allowance ∧
      (purchaseRoute st chain sid pid d (.mined allowance ttx)).2.2.balanceOf pw.address
          = chain.balanceOf pw.address + allowance) := by
  constructor
  · intro st chain sid rid amount note d allowance ttx sender recipient cid community w
      hs hrid hamt hbal hr hcm hcidres hcom hta hw hpos halt hids haddr
    obtain ⟨ta, hta2⟩ := Option.isSome_iff_exists.mp hta
    have hsid : sender.id = sid := by
      have := List.find?_some hs
      simpa using this
    have hridid : recipient.id = rid := by
      have := List.find?_some hr
      simpa using this
    have hpt : permitTransfer chain w.address recipient.ethAddress
        (parseAmount amount d) (.mined allowance ttx)
        = .ok (allowance, ttx, chainTransfer chain w.address recipient.ethAddress allowance) := by
      simp only [permitTransfer]
      rw [if_neg (by omega), if_neg (by omega)]
    have hroute : transferRoute st chain sid rid amount note d (.mined allowance ttx)
        = (.ok ⟨amount, ttx, recipient.name⟩,
           (createTransaction
             (updateUserBalance (updateUserBalance st sender.id (-amount))
               recipient.id amount)
             ⟨"send", amount,
              (if note = "" then "Trasferimento a " ++ recipient.name else note),
              "completed", some ttx, some sender.id, some recipient.id, none,
              some cid⟩).2,
           chainTransfer chain w.address recipient.ethAddress allowance) := by
      simp only [transferRoute, hs]
      rw [if_neg (by push_neg; exact ⟨hrid, by omega⟩), if_neg hbal]
      simp only [hr]
      rw [if_neg hcm]
      simp only [hcidres, hcom, hta2, hw, hpt]
    rw [hroute]
    refine ⟨rfl, ?_, ?_, ?_, ?_⟩
    · rw [getUser_createTransaction, getUser_updateUserBalance,
          getUser_updateUserBalance, hs, Option.map_some', Option.map_some',
          bumpBalance_eq_self sender.id (-amount) sender rfl,
          bumpBalance_ne_self recipient.id amount
            { sender with tokenBalance := sender.tokenBalance + -amount } hids,
          sub_eq_add_neg]
    · rw [getUser_createTransaction, getUser_updateUserBalance,
          getUser_updateUserBalance, hr, Option.map_some', Option.map_some',
          bumpBalance_ne_self sender.id (-amount) recipient
            (fun hcc => hids hcc.symm),
          bumpBalance_eq_self recipient.id amount recipient rfl]
    · show chain.balanceOf w.address
          - (if w.address = w.address then allowance else 0)
          + (if w.address = recipient.ethAddress then allowance else 0)
        = chain.balanceOf w.address - allowance
      rw [if_pos rfl, if_neg haddr, add_zero]
    · show chain.balanceOf recipient.ethAddress
          - (if recipient.ethAddress = w.address then allowance else 0)
          + (if recipient.ethAddress = recipient.ethAddress then allowance else 0)
        = chain.balanceOf recipient.ethAddress + allowance
      rw [if_pos rfl, if_neg (fun hh => haddr hh.symm), sub_zero]
  · intro st chain sid pid d allowance ttx buyer provider product cid community bw pw
      hb hp hbal hprov hcid hav hcom hta hbw hpw hpos halt hids haddr
    obtain ⟨ta, hta2⟩ := Option.isSome_iff_exists.mp hta
    have hbid : buyer.id = sid := by
      have := List.find?_some hb
      simpa using this
    have hprovid : provider.id = product.providerId := by
      have := List.find?_some hprov
      simpa using this
    have hpt : permitTransfer chain bw.address pw.address
        (parseAmount product.price d) (.mined allowance ttx)
        = .ok (allowance, ttx, chainTransfer chain bw.address pw.address allowance) := by
      simp only [permitTransfer]
      rw [if_neg (by omega), if_neg (by omega)]
    have hroute : purchaseRoute st chain sid pid d (.mined allowance ttx)
        = (.ok ⟨(getUser (updateTransactionStatus
              (updateUserBalance
                (updateUserBalance
                  (createTransaction st
                    ⟨"purchase", product.price, "Acquisto: " ++ product.name,
                     "pending", none, some buyer.id, some product.providerId,
                     some product.id, some cid⟩).2
                  buyer.id (-product.price))
                provider.id product.price)
              (createTransaction st
                ⟨"purchase", product.price, "Acquisto: " ++ product.name,
                 "pending", none, some buyer.id, some product.providerId,
                 some product.id, some cid⟩).1.id
              "completed" (some ttx)) buyer.id).map (fun u => u.tokenBalance),
            product.name, ttx⟩,
           updateTransactionStatus
              (updateUserBalance
                (updateUserBalance
                  (createTransaction st
                    ⟨"purchase", product.price, "Acquisto: " ++ product.name,
                     "pending", none, some buyer.id, some product.providerId,
                     some product.id, some cid⟩).2
                  buyer.id (-product.price))
                provider.id product.price)
              (createTransaction st
                ⟨"purchase", product.price, "Acquisto: " ++ product.name,
                 "pending", none, some buyer.id, some product.providerId,
                 some product.id, some cid⟩).1.id
              "completed" (some ttx),
           chainTransfer chain bw.address pw.address allowance) := by
      simp only [purchaseRoute, hb, hp]
      rw [if_neg hbal]
      simp only [hprov, hcid]
      rw [if_neg (by simp [hav])]
      simp only [hcom, hta2, hbw, hpw, hpt]
    rw [hroute]
    have hgu : ∀ x, getUser (updateTransactionStatus
          (updateUserBalance
            (updateUserBalance
              (createTransaction st
                ⟨"purchase", product.price, "Acquisto: " ++ product.name,
                 "pending", none, some buyer.id, some product.providerId,
                 some product.id, some cid⟩).2
              buyer.id (-product.price))
            provider.id product.price)
          (createTransaction st
            ⟨"purchase", product.price, "Acquisto: " ++ product.name,
             "pending", none, some buyer.id, some product.providerId,
             some product.id, some cid⟩).1.id
          "completed" (some ttx)) x
        = ((getUser st x).map (bumpBalance buyer.id (-product.price))).map
            (bumpBalance provider.id product.price) := by
      intro x
      rw [getUser_updateTransactionStatus, getUser_updateUserBalance,
        getUser_updateUserBalance, getUser_createTransaction]
    refine ⟨?_, ?_, ?_, ?_⟩
    · rw [hgu, hb, Option.map_some', Option.map_some',
          bumpBalance_eq_self buyer.id (-product.price) buyer rfl,
          bumpBalance_ne_self provider.id product.price
            { buyer with tokenBalance := buyer.tokenBalance + -product.price } hids,
          sub_eq_add_neg]
    · rw [hgu, hprovid, hprov, Option.map_some', Option.map_some',
          bumpBalance_ne_self buyer.id (-product.price) provider
            (fun hcc => hids hcc.symm),
          bumpBalance_eq_self product.providerId product.price provider hprovid]
      rw [hprovid]
    · show chain.balanceOf bw.address
          - (if bw.address = bw.address then allowance else 0)
          + (if bw.address = pw.address then allowance else 0)
        = chain.balanceOf bw.address - allowance
      rw [if_pos rfl, if_neg haddr, add_zero]
    · show chain.balanceOf pw.address
          - (if pw.address = bw.address then allowance else 0)
          + (if pw.address = pw.address then allowance else 0)
        = chain.balanceOf pw.address + allowance
      rw [if_pos rfl, if_neg (fun hh => haddr hh.symm), sub_zero]


/-- Closed instance of `cached_vs_chain_divergence`: with decimals 1, a
requested human amount of 3 (30 wei) and a granted allowance of only 7 wei,
the cached balances move by 3 while the on-chain balances move by 7 wei, in
both the transfer and the purchase flow. -/
theorem cached_vs_chain_divergence_witness :
    ((transferRoute
        ⟨[⟨"s", "s@x", "S", "user", some "c1", "0xs", 50⟩,
          ⟨"r", "r@x", "R", "user", some "c1", "0xr", 5⟩],
         [⟨"w1", "s", "0xws", 1⟩], [⟨"c1", some "0xt"⟩], [], [], [], 0⟩
        ⟨fun _ => 100, fun _ => 0, fun _ => 0, fun _ => 0⟩
        "s" "r" 3 "" 1 (.mined 7 "0xtt")).1
        = .ok ⟨3, "0xtt", "R"⟩ ∧
      getUser (transferRoute
        ⟨[⟨"s", "s@x", "S", "user", some "c1", "0xs", 50⟩,
          ⟨"r", "r@x", "R", "user", some "c1", "0xr", 5⟩],
         [⟨"w1", "s", "0xws", 1⟩], [⟨"c1", some "0xt"⟩], [], [], [], 0⟩
        ⟨fun _ => 100, fun _ => 0, fun _ => 0, fun _ => 0⟩
        "s" "r" 3 "" 1 (.mined 7 "0xtt")).2.1 "s"
        = some ⟨"s", "s@x", "S", "user", some "c1", "0xs", 50 - 3⟩ ∧
      getUser (transferRoute
        ⟨[⟨"s", "s@x", "S", "user", some "c1", "0xs", 50⟩,
          ⟨"r", "r@x", "R", "user", some "c1", "0xr", 5⟩],
         [⟨"w1", "s", "0xws", 1⟩], [⟨"c1", some "0xt"⟩], [], [], [], 0⟩
        ⟨fun _ => 100, fun _ => 0, fun _ => 0, fun _ => 0⟩
        "s" "r" 3 "" 1 (.mined 7 "0xtt")).2.1 "r"
        = some ⟨"r", "r@x", "R", "user", some "c1", "0xr", 5 + 3⟩ ∧
      (transferRoute
        ⟨[⟨"s", "s@x", "S", "user", some "c1", "0xs", 50⟩,
          ⟨"r", "r@x", "R", "user", some "c1", "0xr", 5⟩],
         [⟨"w1", "s", "0xws", 1⟩], [⟨"c1", some "0xt"⟩], [], [], [], 0⟩
        ⟨fun _ => 100, fun _ => 0, fun _ => 0, fun _ => 0⟩
        "s" "r" 3 "" 1 (.mined 7 "0xtt")).2.2.balanceOf "0xws"
        = (100 : Int) - 7 ∧
      (transferRoute
        ⟨[⟨"s", "s@x", "S", "user", some "c1", "0xs", 50⟩,
          ⟨"r", "r@x", "R", "user", some "c1", "0xr", 5⟩],
         [⟨"w1", "s", "0xws", 1⟩], [⟨"c1", some "0xt"⟩], [], [], [], 0⟩
        ⟨fun _ => 100, fun _ => 0, fun _ => 0, fun _ => 0⟩
        "s" "r" 3 "" 1 (.mined 7 "0xtt")).2.2.balanceOf "0xr"
        = (100 : Int) + 7) ∧
    (getUser (purchaseRoute
        ⟨[⟨"b", "b@x", "B", "user", some "c1", "0xb", 50⟩,
          ⟨"p", "p@x", "P", "provider", none, "0xp", 5⟩],
         [⟨"wb", "b", "0xwb", 1⟩, ⟨"wp", "p", "0xwp", 1⟩],
         [⟨"c1", some "0xt"⟩], [⟨"prod1", "Bread", 3, "p"⟩],
         [("prod1", "c1")], [], 0⟩
        ⟨fun _ => 100, fun _ => 0, fun _ => 0, fun _ => 0⟩
        "b" "prod1" 1 (.mined 7 "0xtt")).2.1 "b"
        = some ⟨"b", "b@x", "B", "user", some "c1", "0xb", 50 - 3⟩ ∧
      getUser (purchaseRoute
        ⟨[⟨"b", "b@x", "B", "user", some "c1", "0xb", 50⟩,
          ⟨"p", "p@x", "P", "provider", none, "0xp", 5⟩],
         [⟨"wb", "b", "0xwb", 1⟩, ⟨"wp", "p", "0xwp", 1⟩],
         [⟨"c1", some "0xt"⟩], [⟨"prod1", "Bread", 3, "p"⟩],
         [("prod1", "c1")], [], 0⟩
        ⟨fun _ => 100, fun _ => 0, fun _ => 0, fun _ => 0⟩
        "b" "prod1" 1 (.mined 7 "0xtt")).2.1 "p"
        = some ⟨"p", "p@x", "P", "provider", none, "0xp", 5 + 3⟩ ∧
      (purchaseRoute
        ⟨[⟨"b", "b@x", "B", "user", some "c1", "0xb", 50⟩,
          ⟨"p", "p@x", "P", "provider", none, "0xp", 5⟩],
         [⟨"wb", "b", "0xwb", 1⟩, ⟨"wp", "p", "0xwp", 1⟩],
         [⟨"c1", some "0xt"⟩], [⟨"prod1", "Bread", 3, "p"⟩],
         [("prod1", "c1")], [], 0⟩
        ⟨fun _ => 100, fun _ => 0, fun _ => 0, fun _ => 0⟩
        "b" "prod1" 1 (.mined 7 "0xtt")).2.2.balanceOf "0xwb"
        = (100 : Int) - 7 ∧
      (purchaseRoute
        ⟨[⟨"b", "b@x", "B", "user", some "c1", "0xb", 50⟩,
          ⟨"p", "p@x", "P", "provider", none, "0xp", 5⟩],
         [⟨"wb", "b", "0xwb", 1⟩, ⟨"wp", "p", "0xwp", 1⟩],
         [⟨"c1", some "0xt"⟩], [⟨"prod1", "Bread", 3, "p"⟩],
         [("prod1", "c1")], [], 0⟩
        ⟨fun _ => 100, fun _ => 0, fun _ => 0, fun _ => 0⟩
        "b" "prod1" 1 (.mined 7 "0xtt")).2.2.balanceOf "0xwp"
        = (100 : Int) + 7) :=
  ⟨cached_vs_chain_divergence.1
      ⟨[⟨"s", "s@x", "S", "user", some "c1", "0xs", 50⟩,
        ⟨"r", "r@x", "R", "user", some "c1", "0xr", 5⟩],
       [⟨"w1", "s", "0xws", 1⟩], [⟨"c1", some "0xt"⟩], [], [], [], 0⟩
      ⟨fun _ => 100, fun _ => 0, fun _ => 0, fun _ => 0⟩
      "s" "r" 3 "" 1 7 "0xtt"
      ⟨"s", "s@x", "S", "user", some "c1", "0xs", 50⟩
      ⟨"r", "r@x", "R", "user", some "c1", "0xr", 5⟩
      "c1" ⟨"c1", some "0xt"⟩ ⟨"w1", "s", "0xws", 1⟩
      rfl (by decide) (by decide) (by decide) rfl (by decide) rfl rfl rfl rfl
      (by decide) (by decide) (by decide) (by decide),
   cached_vs_chain_divergence.2
      ⟨[⟨"b", "b@x", "B", "user", some "c1", "0xb", 50⟩,
        ⟨"p", "p@x", "P", "provider", none, "0xp", 5⟩],
       [⟨"wb", "b", "0xwb", 1⟩, ⟨"wp", "p", "0xwp", 1⟩],
       [⟨"c1", some "0xt"⟩], [⟨"prod1", "Bread", 3, "p"⟩],
       [("prod1", "c1")], [], 0⟩
      ⟨fun _ => 100, fun _ => 0, fun _ => 0, fun _ => 0⟩
      "b" "prod1" 1 7 "0xtt"
      ⟨"b", "b@x", "B", "user", some "c1", "0xb", 50⟩
      ⟨"p", "p@x", "P", "provider", none, "0xp", 5⟩
      ⟨"prod1", "Bread", 3, "p"⟩
      "c1" ⟨"c1", some "0xt"⟩ ⟨"wb", "b", "0xwb", 1⟩ ⟨"wp", "p", "0xwp", 1⟩
      rfl rfl (by decide) rfl rfl rfl rfl rfl rfl rfl
      (by decide) (by decide) (by decide) (by decide)⟩


theorem completedHasHash_createTransaction (st : Storage) (ins : InsertTxn)
    (h : CompletedHasHash st) (hins : ins.status = "completed" → ins.txHash ≠ none) :
    CompletedHasHash (createTransaction st ins).2 := by
  intro t ht hst
  rcases List.mem_append.mp ht with hold | hnew
  · exact h t hold hst
  · have hteq : t = (createTransaction st ins).1 := by simpa using hnew
    subst hteq
    exact hins hst

theorem completedHasHash_updateUserBalance (st : Storage) (uid : String) (amt : Int)
    (h : CompletedHasHash st) : CompletedHasHash (updateUserBalance st uid amt) :=
  fun t ht => h t ht

theorem completedHasHash_updateTransactionStatus_completed (st : Storage) (i : Nat)
    (hh : String) (h : CompletedHasHash st) :
    CompletedHasHash (updateTransactionStatus st i "completed" (some hh)) := by
  intro t ht
  obtain ⟨t0, ht0, rfl⟩ := List.mem_map.mp ht
  unfold applyStatus
  split
  · intro _
    simp
  · exact h t0 ht0

theorem distributeLoop_completedHasHash (user : User) (oracle : Nat → ChainOutcome) :
    ∀ (ds : List Distribution) (i : Nat) (st : Storage), CompletedHasHash st →
      CompletedHasHash (distributeLoop user oracle ds i st).1 := by
  intro ds
  induction ds with
  | nil => intro i st h; exact h
  | cons d rest ih =>
    intro i st h
    cases hA : getUserByEmail st d.email with
    | none =>
      simp only [distributeLoop, hA]
      exact ih _ _ h
    | some target =>
      cases ho : oracle i with
      | ok hh =>
        simp only [distributeLoop, hA, ho]
        by_cases hmem : target.communityId ≠ user.communityId
        · rw [if_pos hmem]
          exact ih _ _ h
        · rw [if_neg hmem]
          exact ih _ _ (completedHasHash_updateTransactionStatus_completed _ _ _
            (completedHasHash_updateUserBalance _ _ _
              (completedHasHash_createTransaction _ _ h
                (fun hc => by simp at hc))))
      | err m =>
        simp only [distributeLoop, hA, ho]
        by_cases hmem : target.communityId ≠ user.communityId
        · rw [if_pos hmem]
          exact ih _ _ h
        · rw [if_neg hmem]
          exact ih _ _ (completedHasHash_createTransaction _ _ h
            (fun hc => by simp at hc))

theorem burnAllLoop_completedHasHash (coordId cid : String)
    (oracle : Nat → ChainOutcome) :
    ∀ (bs : List BalanceRecord) (i : Nat) (st : Storage), CompletedHasHash st →
      CompletedHasHash (burnAllLoop coordId cid oracle i st bs).2.2.2.2 := by
  intro bs
  induction bs with
  | nil => intro i st h; exact h
  | cons b rest ih =>
    intro i st h
    cases ho : oracle i with
    | ok hh =>
      simp only [burnAllLoop, ho]
      by_cases hb : b.tokenBalance > 0
      · rw [if_pos hb]
        by_cases hrole : b.role ≠ "provider"
        · rw [if_pos hrole]
          exact ih _ _ (completedHasHash_updateTransactionStatus_completed _ _ _
            (completedHasHash_updateUserBalance _ _ _
              (completedHasHash_createTransaction _ _ h
                (fun hc => by simp at hc))))
        · rw [if_neg hrole]
          exact ih _ _ (completedHasHash_updateTransactionStatus_completed _ _ _
            (completedHasHash_createTransaction _ _ h
              (fun hc => by simp at hc)))
      · rw [if_neg hb]
        exact ih _ _ h
    | err m =>
      simp only [burnAllLoop, ho]
      by_cases hb : b.tokenBalance > 0
      · rw [if_pos hb]
        exact ih _ _ (completedHasHash_createTransaction _ _ h
          (fun hc => by simp at hc))
      · rw [if_neg hb]
        exact ih _ _ h

/-- **C2 (counterexample).** The storage-level mutator `burnAllCommunityTokens`
— one of the operations the claim ranges over — inserts burn transactions with
status `completed` and a null chain transaction hash: from a state with one
positive-balance holder, the resulting transaction store contains a completed
`SettlementTransaction` whose `txHash` is null, so the claimed invariant fails
on a reachable state. -/
theorem burnAll_completed_without_hash :
    ∃ t ∈ (burnAllCommunityTokens
        ⟨[⟨"u1", "a", "A", "user", some "c1", "0xa", 300⟩], [], [], [], [], [], 0⟩
        "c1" "coord").2.transactions,
      t.status = "completed" ∧ t.txHash = none := by
  decide

/-- **C2 (amended).** Every state reachable from a state satisfying the
invariant through the ROUTE-LEVEL settlement operations (distribute, burn,
burn-all, transfer, purchase), with any request arguments and any chain
outcomes, still satisfies it: every completed `SettlementTransaction` carries
a non-null chain transaction hash.  The storage-level mutators are excluded:
`burnAllCommunityTokens` inserts completed records with a null hash (see the
counterexample), and `updateTransactionStatus` invoked with status `completed`
and no hash would preserve a null hash. -/
theorem completed_txn_hash_invariant_routes (st : Storage) (h : CompletedHasHash st) :
    (∀ sid ds oracle, CompletedHasHash (distributeRoute st sid ds oracle).2) ∧
    (∀ sid amount desc tgt o, CompletedHasHash (burnRoute st sid amount desc tgt o).2) ∧
    (∀ sid cfg oracle, CompletedHasHash (burnAllRoute st sid cfg oracle).2) ∧
    (∀ chain sid rid amount note d o,
      CompletedHasHash (transferRoute st chain sid rid amount note d o).2.1) ∧
    (∀ chain sid pid d o,
      CompletedHasHash (purchaseRoute st chain sid pid d o).2.1) := by
  refine ⟨fun sid ds oracle => ?_, fun sid amount desc tgt o => ?_,
    fun sid cfg oracle => ?_, fun chain sid rid amount note d o => ?_,
    fun chain sid pid d o => ?_⟩
  · simp only [distributeRoute]
    repeat' split
    all_goals first
      | exact h
      | exact distributeLoop_completedHasHash _ _ _ _ _ h
  · simp only [burnRoute]
    repeat' split
    all_goals first
      | exact h
      | exact completedHasHash_updateTransactionStatus_completed _ _ _
          (completedHasHash_updateUserBalance _ _ _
            (completedHasHash_createTransaction _ _ h
              (fun hc => by simp at hc)))
      | exact completedHasHash_createTransaction _ _ h
          (fun hc => by simp at hc)
  · simp only [burnAllRoute]
    repeat' split
    all_goals first
      | exact h
      | exact burnAllLoop_completedHasHash _ _ _ _ _ _ h
  · simp only [transferRoute]
    repeat' split
    all_goals first
      | exact h
      | (apply completedHasHash_createTransaction _ _
           (completedHasHash_updateUserBalance _ _ _
             (completedHasHash_updateUserBalance _ _ _ h))
         intro _
         simp)
  · simp only [purchaseRoute]
    repeat' split
    all_goals first
      | exact h
      | exact completedHasHash_updateTransactionStatus_completed _ _ _
          (completedHasHash_updateUserBalance _ _ _
            (completedHasHash_updateUserBalance _ _ _
              (completedHasHash_createTransaction _ _ h
                (fun hc => by simp at hc))))
      | exact completedHasHash_createTransaction _ _ h
          (fun hc => by simp at hc)

/-- Closed instance of `completed_txn_hash_invariant_routes` at the empty
storage and concrete requests for each of the five flows. -/
theorem completed_txn_hash_invariant_routes_witness :
    CompletedHasHash (distributeRoute ⟨[], [], [], [], [], [], 0⟩ "u" []
      (fun _ => .ok "h")).2 ∧
    CompletedHasHash (burnRoute ⟨[], [], [], [], [], [], 0⟩ "u" 5 "" none
      (.ok "h")).2 ∧
    CompletedHasHash (burnAllRoute ⟨[], [], [], [], [], [], 0⟩ "u" true
      (fun _ => .ok "h")).2 ∧
    CompletedHasHash (transferRoute ⟨[], [], [], [], [], [], 0⟩
      ⟨fun _ => 0, fun _ => 0, fun _ => 0, fun _ => 0⟩
      "u" "r" 5 "" 0 (.chainErr "m")).2.1 ∧
    CompletedHasHash (purchaseRoute ⟨[], [], [], [], [], [], 0⟩
      ⟨fun _ => 0, fun _ => 0, fun _ => 0, fun _ => 0⟩
      "u" "p" 0 (.chainErr "m")).2.1 :=
  ⟨(completed_txn_hash_invariant_routes ⟨[], [], [], [], [], [], 0⟩
      (fun t ht => absurd ht (List.not_mem_nil t))).1 "u" [] (fun _ => .ok "h"),
   (completed_txn_hash_invariant_routes ⟨[], [], [], [], [], [], 0⟩
      (fun t ht => absurd ht (List.not_mem_nil t))).2.1 "u" 5 "" none (.ok "h"),
   (completed_txn_hash_invariant_routes ⟨[], [], [], [], [], [], 0⟩
      (fun t ht => absurd ht (List.not_mem_nil t))).2.2.1 "u" true (fun _ => .ok "h"),
   (completed_txn_hash_invariant_routes ⟨[], [], [], [], [], [], 0⟩
      (fun t ht => absurd ht (List.not_mem_nil t))).2.2.2.1
      ⟨fun _ => 0, fun _ => 0, fun _ => 0, fun _ => 0⟩ "u" "r" 5 "" 0 (.chainErr "m"),
   (completed_txn_hash_invariant_routes ⟨[], [], [], [], [], [], 0⟩
      (fun t ht => absurd ht (List.not_mem_nil t))).2.2.2.2
      ⟨fun _ => 0, fun _ => 0, fun _ => 0, fun _ => 0⟩ "u" "p" 0 (.chainErr "m")⟩

theorem applyBurns_cons (users : List User) (e : BalanceRecord) (l : List BalanceRecord) :
    applyBurns users (e :: l) = applyBurns (applyBurn users e) l := rfl

theorem applyBurns_append (users : List User) (l1 l2 : List BalanceRecord) :
    applyBurns users (l1 ++ l2) = applyBurns (applyBurns users l1) l2 := by
  unfold applyBurns
  rw [List.foldl_append]

theorem find?_applyBurn (users : List User) (e : BalanceRecord) (x : String)
    (h : e.id ≠ x ∨ e.role = "provider") :
    (applyBurn users e).find? (fun u => u.id == x) = users.find? (fun u => u.id == x) := by
  unfold applyBurn
  split
  · rename_i hrole
    have hx : e.id ≠ x := h.resolve_right hrole
    rw [find?_map_pred _ _ (fun u => by rw [bumpBalance_id])]
    cases hf : users.find? (fun u => u.id == x) with
    | none => rfl
    | some u =>
      have hid : u.id = x := by simpa using List.find?_some hf
      simp only [Option.map_some']
      rw [bumpBalance_ne_self e.id (-e.tokenBalance) u (by rw [hid]; exact hx.symm)]
  · rfl

theorem find?_applyBurns (L : List BalanceRecord) (x : String)
    (h : ∀ e ∈ L, e.id ≠ x ∨ e.role = "provider") :
    ∀ users : List User,
      (applyBurns users L).find? (fun u => u.id == x)
        = users.find? (fun u => u.id == x) := by
  induction L with
  | nil => intro users; rfl
  | cons e rest ih =>
    intro users
    rw [applyBurns_cons, ih (fun a ha => h a (List.mem_cons_of_mem _ ha)),
        find?_applyBurn users e x (h e (List.mem_cons_self _ _))]

theorem find?_id_of_mem (users : List User) (u : User) (hmem : u ∈ users)
    (hnd : (users.map (fun v => v.id)).Nodup) :
    users.find? (fun v => v.id == u.id) = some u := by
  induction users with
  | nil => cases hmem
  | cons v rest ih =>
    rw [List.map_cons, List.nodup_cons] at hnd
    by_cases hv : v.id = u.id
    · rw [List.find?_cons_of_pos _ (by simpa using hv)]
      rcases List.mem_cons.mp hmem with h1 | h1
      · rw [h1]
      · exfalso
        apply hnd.1
        rw [hv]
        exact List.mem_map_of_mem _ h1
    · rw [List.find?_cons_of_neg _ (by simpa using hv)]
      refine ih ?_ hnd.2
      rcases List.mem_cons.mp hmem with h1 | h1
      · exact absurd (congrArg (fun w : User => w.id) h1).symm hv
      · exact h1

/-- When every chain submission succeeds, the burn-all loop reports the sum of
the (positive) entry balances as the total, one affected user per entry, no
errors, and its only effect on the user table is `applyBurns`. -/
theorem burnAllLoop_all_ok (coordId cid : String) (oracle : Nat → ChainOutcome)
    (hok : ∀ j, ∃ hh, oracle j = ChainOutcome.ok hh) :
    ∀ (L : List BalanceRecord) (i : Nat) (st : Storage),
      (∀ e ∈ L, 0 < e.tokenBalance) →
      (burnAllLoop coordId cid oracle i st L).1
          = (L.map (fun e => e.tokenBalance)).sum ∧
      (burnAllLoop coordId cid oracle i st L).2.1 = L.length ∧
      (burnAllLoop coordId cid oracle i st L).2.2.2.1 = [] ∧
      (burnAllLoop coordId cid oracle i st L).2.2.2.2.users = applyBurns st.users L := by
  intro L
  induction L with
  | nil => intro i st _; exact ⟨rfl, rfl, rfl, rfl⟩
  | cons b rest ih =>
    intro i st hpos
    obtain ⟨hh, hho⟩ := hok i
    have hb : b.tokenBalance > 0 := hpos b (List.mem_cons_self _ _)
    have hrest : ∀ e ∈ rest, 0 < e.tokenBalance :=
      fun e he => hpos e (List.mem_cons_of_mem _ he)
    simp only [burnAllLoop, hho]
    rw [if_pos hb]
    refine ⟨?_, ?_, ?_, ?_⟩ <;> dsimp only
    · rw [(ih (i + 1) _ hrest).1, List.map_cons, List.sum_cons]
    · rw [(ih (i + 1) _ hrest).2.1, List.length_cons]
    · exact (ih (i + 1) _ hrest).2.2.1
    · rw [(ih (i + 1) _ hrest).2.2.2, applyBurns_cons]
      congr 1
      unfold applyBurn
      by_cases hrole : b.role ≠ "provider"
      · rw [if_pos hrole, if_pos hrole]; rfl
      · rw [if_neg hrole, if_neg hrole]; rfl

theorem providersWithSales_mem (st : Storage) (cid : String) (u : User) (a : Int)
    (h : (u, a) ∈ providersWithSales st cid) :
    u ∈ st.users ∧ ∃ p ∈ st.products, u.id = p.providerId := by
  unfold providersWithSales at h
  rw [List.mem_filterMap] at h
  obtain ⟨t, ht, hf⟩ := h
  split at hf
  · cases hpid : t.productId with
    | none => simp only [hpid] at hf; exact Option.noConfusion hf
    | some pid =>
      simp only [hpid] at hf
      cases hp : st.products.find? (fun p => p.id == pid) with
      | none => simp only [hp] at hf; exact Option.noConfusion hf
      | some p =>
        simp only [hp] at hf
        cases hufind : st.users.find? (fun v => v.id == p.providerId) with
        | none => simp only [hufind] at hf; exact Option.noConfusion hf
        | some v =>
          simp only [hufind, Option.some.injEq, Prod.mk.injEq] at hf
          obtain ⟨rfl, -⟩ := hf
          refine ⟨List.mem_of_find?_eq_some hufind, p, List.mem_of_find?_eq_some hp, ?_⟩
          simpa using List.find?_some hufind
  · simp at hf

theorem foldl_accumulateSale_mem (sales : List (User × Int)) :
    ∀ (acc : List BalanceRecord), ∀ r ∈ sales.foldl accumulateSale acc,
      (∃ r0 ∈ acc, r.id = r0.id ∧ r.role = r0.role) ∨
      (∃ p ∈ sales, r.id = p.1.id ∧ r.role = p.1.role) := by
  induction sales with
  | nil => intro acc r hr; exact Or.inl ⟨r, hr, rfl, rfl⟩
  | cons s rest ih =>
    intro acc r hr
    rcases ih (accumulateSale acc s) r hr with ⟨r0, hr0, hid, hrole⟩ | ⟨p, hp, hid, hrole⟩
    · unfold accumulateSale at hr0
      split at hr0
      · rw [List.mem_map] at hr0
        obtain ⟨r1, hr1, heq⟩ := hr0
        have h2 : r0.id = r1.id ∧ r0.role = r1.role := by
          rw [← heq]; split <;> exact ⟨rfl, rfl⟩
        exact Or.inl ⟨r1, hr1, hid.trans h2.1, hrole.trans h2.2⟩
      · rw [List.mem_append] at hr0
        rcases hr0 with h1 | h1
        · exact Or.inl ⟨r0, h1, hid, hrole⟩
        · rw [List.mem_singleton] at h1
          subst h1
          exact Or.inr ⟨s, List.mem_cons_self _ _, hid, hrole⟩
    · exact Or.inr ⟨p, List.mem_cons_of_mem _ hp, hid, hrole⟩

theorem foldl_applyProviderBurn_mem (burns : List (String × Int)) :
    ∀ (acc : List BalanceRecord), ∀ r ∈ burns.foldl applyProviderBurn acc,
      ∃ r0 ∈ acc, r.id = r0.id ∧ r.role = r0.role := by
  induction burns with
  | nil => intro acc r hr; exact ⟨r, hr, rfl, rfl⟩
  | cons bn rest ih =>
    intro acc r hr
    obtain ⟨r0, hr0, hid, hrole⟩ := ih (applyProviderBurn acc bn) r hr
    unfold applyProviderBurn at hr0
    rw [List.mem_map] at hr0
    obtain ⟨r1, hr1, heq⟩ := hr0
    have h2 : r0.id = r1.id ∧ r0.role = r1.role := by
      rw [← heq]; split <;> exact ⟨rfl, rfl⟩
    exact ⟨r1, hr1, hid.trans h2.1, hrole.trans h2.2⟩

theorem foldl_appendIfAbsent_mem (ps : List BalanceRecord) :
    ∀ (acc : List BalanceRecord), ∀ r ∈ ps.foldl appendIfAbsent acc, r ∈ acc ∨ r ∈ ps := by
  induction ps with
  | nil => intro acc r hr; exact Or.inl hr
  | cons p rest ih =>
    intro acc r hr
    rcases ih (appendIfAbsent acc p) r hr with h1 | h1
    · unfold appendIfAbsent at h1
      split at h1
      · exact Or.inl h1
      · rw [List.mem_append] at h1
        rcases h1 with h2 | h2
        · exact Or.inl h2
        · rw [List.mem_singleton] at h2
          subst h2
          exact Or.inr (List.mem_cons_self _ _)
    · exact Or.inr (List.mem_cons_of_mem _ h1)

/-- Under the repository's role discipline for product owners, every derived
provider-balance record of `getCommunityBalances` carries role `provider` and
names a stored user of that id and role. -/
theorem providerBalances_role (st : Storage) (cid : String)
    (hProd : ∀ p ∈ st.products, ∀ u ∈ st.users, u.id = p.providerId → u.role = "provider") :
    ∀ r ∈ (providerBurns st cid).foldl applyProviderBurn
        ((providersWithSales st cid).foldl accumulateSale []),
      (∃ u ∈ st.users, u.id = r.id ∧ u.role = r.role) ∧ r.role = "provider" := by
  intro r hr
  obtain ⟨r0, hr0, hid, hrole⟩ := foldl_applyProviderBurn_mem _ _ r hr
  rcases foldl_accumulateSale_mem _ _ r0 hr0 with ⟨r1, hr1, -, -⟩ | ⟨p, hp, hid2, hrole2⟩
  · simp at hr1
  · obtain ⟨humem, q, hq, hqid⟩ := providersWithSales_mem st cid p.1 p.2 hp
    have hprole : p.1.role = "provider" := hProd q hq p.1 humem hqid
    exact ⟨⟨p.1, humem, (hid.trans hid2).symm, (hrole.trans hrole2).symm⟩,
           (hrole.trans hrole2).trans hprole⟩

/-- Every entry of `getCommunityBalances` has a strictly positive balance and
names a stored user of the same id and role; for non-provider entries the
entry balance is exactly the user's cached balance. -/
theorem communityBalances_entry (st : Storage) (cid : String)
    (hProd : ∀ p ∈ st.products, ∀ u ∈ st.users, u.id = p.providerId → u.role = "provider") :
    ∀ e ∈ getCommunityBalances st cid,
      0 < e.tokenBalance ∧
      ∃ u ∈ st.users, u.id = e.id ∧ u.role = e.role ∧
        (e.role ≠ "provider" → u.tokenBalance = e.tokenBalance) := by
  intro e he
  simp only [getCommunityBalances, List.mem_filter, decide_eq_true_eq] at he
  obtain ⟨hmem, hpos⟩ := he
  refine ⟨hpos, ?_⟩
  rcases foldl_appendIfAbsent_mem _ _ e hmem with h1 | h1
  · rw [List.mem_map] at h1
    obtain ⟨u, hu, heq⟩ := h1
    rw [List.mem_filter] at hu
    refine ⟨u, hu.1, ?_, ?_, fun _ => ?_⟩ <;> rw [← heq] <;> rfl
  · obtain ⟨⟨u, humem, hids, hroles⟩, hprov⟩ := providerBalances_role st cid hProd e h1
    exact ⟨u, humem, hids, hroles, fun hne => absurd hprov hne⟩

theorem appendIfAbsent_nodup (acc : List BalanceRecord) (p : BalanceRecord)
    (h : (acc.map (fun r => r.id)).Nodup) :
    ((appendIfAbsent acc p).map (fun r => r.id)).Nodup := by
  unfold appendIfAbsent
  split
  · exact h
  · rename_i hany
    rw [List.map_append, List.nodup_append]
    refine ⟨h, List.nodup_singleton _, fun x hx hxp => ?_⟩
    simp only [List.map_cons, List.map_nil, List.mem_singleton] at hxp
    simp only [List.mem_map] at hx
    obtain ⟨r, hr, hxe⟩ := hx
    apply hany
    rw [List.any_eq_true]
    refine ⟨r, hr, ?_⟩
    rw [beq_iff_eq, hxe, hxp]

theorem foldl_appendIfAbsent_nodup (ps : List BalanceRecord) :
    ∀ acc, (acc.map (fun r => r.id)).Nodup →
      ((ps.foldl appendIfAbsent acc).map (fun r => r.id)).Nodup := by
  induction ps with
  | nil => intro acc h; exact h
  | cons p rest ih => intro acc h; exact ih _ (appendIfAbsent_nodup acc p h)

theorem base_ids_nodup (st : Storage) (cid : String)
    (h : (st.users.map (fun u => u.id)).Nodup) :
    (((st.users.filter (fun u => u.communityId == some cid)).map
        (fun u => mkBalanceRecord u u.tokenBalance)).map (fun r => r.id)).Nodup := by
  rw [List.map_map]
  have hcomp : ((fun r : BalanceRecord => r.id)
        ∘ fun u : User => mkBalanceRecord u u.tokenBalance)
      = fun u : User => u.id := rfl
  rw [hcomp]
  exact List.Nodup.sublist ((List.filter_sublist _).map _) h

/-- The ids of the community balance sheet are pairwise distinct whenever the
stored user ids are. -/
theorem communityBalances_ids_nodup (st : Storage) (cid : String)
    (h : (st.users.map (fun u => u.id)).Nodup) :
    ((getCommunityBalances st cid).map (fun r => r.id)).Nodup := by
  simp only [getCommunityBalances]
  exact List.Nodup.sublist ((List.filter_sublist _).map _)
    (foldl_appendIfAbsent_nodup _ _ (base_ids_nodup st cid h))

/-- **C5.** For a burn-all request issued by a coordinator of a community with
a token and a default wallet, when every per-holder chain submission succeeds,
the route reports `totalBurned` equal to the sum of the strictly positive
balances of the community balance sheet and `usersAffected` equal to the
number of holders on that sheet, with no errors; afterwards every
non-provider holder of the sheet has cached balance `0`, while the stored
record of every provider user is untouched (provider balances are derived,
not stored).  Hypotheses: distinct stored user ids, and product owners have
role `provider`. -/
theorem burn_all_totals_and_zeroing
    (st : Storage) (sid cid : String) (oracle : Nat → ChainOutcome)
    (user : User) (community : Community)
    (hu : getUser st sid = some user)
    (hrole : user.role = "coordinator")
    (hcid : user.communityId = some cid)
    (hcomm : getCommunity st cid = some community)
    (htok : community.tokenAddress ≠ none)
    (hwallet : getDefaultWallet st user.id ≠ none)
    (hok : ∀ j, ∃ hh, oracle j = ChainOutcome.ok hh)
    (hnd : (st.users.map (fun u => u.id)).Nodup)
    (hProd : ∀ p ∈ st.products, ∀ u ∈ st.users, u.id = p.providerId → u.role = "provider") :
    ∃ resp st2,
      burnAllRoute st sid true oracle = (Except.ok resp, st2) ∧
      resp.totalBurned
          = ((getCommunityBalances st cid).map (fun e => e.tokenBalance)).sum ∧
      resp.usersAffected = (getCommunityBalances st cid).length ∧
      resp.errors = [] ∧
      (∀ e ∈ getCommunityBalances st cid, e.role ≠ "provider" →
        ∃ u2, getUser st2 e.id = some u2 ∧ u2.tokenBalance = 0) ∧
      (∀ v ∈ st.users, v.role = "provider" → getUser st2 v.id = some v) := by
  obtain ⟨ta, hta⟩ : ∃ ta, community.tokenAddress = some ta := by
    cases h : community.tokenAddress with
    | none => exact absurd h htok
    | some x => exact ⟨x, rfl⟩
  obtain ⟨w, hw⟩ : ∃ w, getDefaultWallet st user.id = some w := by
    cases h : getDefaultWallet st user.id with
    | none => exact absurd h hwallet
    | some x => exact ⟨x, rfl⟩
  have hposL : ∀ e ∈ getCommunityBalances st cid, 0 < e.tokenBalance :=
    fun e he => (communityBalances_entry st cid hProd e he).1
  obtain ⟨hsum, hlen, herr, husers⟩ :=
    burnAllLoop_all_ok user.id cid oracle hok (getCommunityBalances st cid) 0 st hposL
  have hroute : burnAllRoute st sid true oracle
      = (Except.ok
          ⟨(burnAllLoop user.id cid oracle 0 st (getCommunityBalances st cid)).1,
           (burnAllLoop user.id cid oracle 0 st (getCommunityBalances st cid)).2.1,
           (burnAllLoop user.id cid oracle 0 st (getCommunityBalances st cid)).2.2.1,
           (burnAllLoop user.id cid oracle 0 st (getCommunityBalances st cid)).2.2.2.1⟩,
         (burnAllLoop user.id cid oracle 0 st (getCommunityBalances st cid)).2.2.2.2) := by
    simp only [burnAllRoute, hu, hcid, hcomm, hta, hw]
    rw [if_neg (fun hc => hc hrole), if_pos trivial]
  refine ⟨_, _, hroute, hsum, hlen, herr, ?_, ?_⟩
  · intro e he hne
    obtain ⟨-, u2, hu2mem, hid2, -, hrest⟩ := communityBalances_entry st cid hProd e he
    have hbal : u2.tokenBalance = e.tokenBalance := hrest hne
    obtain ⟨L1, L2, hsplit⟩ := List.append_of_mem he
    have hndL := communityBalances_ids_nodup st cid hnd
    rw [hsplit, List.map_append, List.map_cons, List.nodup_append, List.nodup_cons] at hndL
    obtain ⟨hnd1, ⟨hnotin2, hnd2⟩, hdisj⟩ := hndL
    have hL2 : ∀ a ∈ L2, a.id ≠ e.id ∨ a.role = "provider" :=
      fun a ha => Or.inl (fun hc => hnotin2 (hc ▸ List.mem_map_of_mem _ ha))
    have hL1 : ∀ a ∈ L1, a.id ≠ e.id ∨ a.role = "provider" :=
      fun a ha => Or.inl (fun hc =>
        hdisj (hc ▸ List.mem_map_of_mem _ ha) (List.mem_cons_self _ _))
    refine ⟨{ u2 with tokenBalance := u2.tokenBalance + -e.tokenBalance }, ?_, ?_⟩
    · unfold getUser
      rw [husers, hsplit, applyBurns_append, applyBurns_cons,
          find?_applyBurns L2 e.id hL2,
          show applyBurn (applyBurns st.users L1) e
              = (applyBurns st.users L1).map (bumpBalance e.id (-e.tokenBalance)) from by
            unfold applyBurn; rw [if_pos hne],
          find?_map_pred _ _ (fun v => by rw [bumpBalance_id]),
          find?_applyBurns L1 e.id hL1]
      have hfound : st.users.find? (fun v => v.id == e.id) = some u2 := by
        rw [← hid2]
        exact find?_id_of_mem st.users u2 hu2mem hnd
      rw [hfound]
      simp only [Option.map_some']
      rw [bumpBalance_eq_self e.id (-e.tokenBalance) u2 hid2]
    · show u2.tokenBalance + -e.tokenBalance = 0
      rw [hbal]
      omega
  · intro v hv hvrole
    have hAll : ∀ a ∈ getCommunityBalances st cid, a.id ≠ v.id ∨ a.role = "provider" := by
      intro a ha
      by_cases hid : a.id = v.id
      · right
        obtain ⟨-, u2, hu2mem, hid2, hrole2, -⟩ := communityBalances_entry st cid hProd a ha
        have h2 : u2 = v := List.inj_on_of_nodup_map hnd hu2mem hv (hid2.trans hid)
        rw [← hrole2, h2]
        exact hvrole
      · exact Or.inl hid
    unfold getUser
    rw [husers, find?_applyBurns _ v.id hAll]
    exact find?_id_of_mem st.users v hv hnd

/-- Closed instance of `burn_all_totals_and_zeroing` on the spec's example
community (cached balances 300, 0 and 150): the balance sheet sums to 450
over exactly 2 holders, as the claim's example requires. -/
theorem burn_all_totals_and_zeroing_witness :
    (∃ resp st2,
        burnAllRoute c5Storage "coord" true (fun _ => ChainOutcome.ok "0xh")
          = (Except.ok resp, st2) ∧
        resp.totalBurned
            = ((getCommunityBalances c5Storage "c1").map (fun e => e.tokenBalance)).sum ∧
        resp.usersAffected = (getCommunityBalances c5Storage "c1").length ∧
        resp.errors = [] ∧
        (∀ e ∈ getCommunityBalances c5Storage "c1", e.role ≠ "provider" →
          ∃ u2, getUser st2 e.id = some u2 ∧ u2.tokenBalance = 0) ∧
        (∀ v ∈ c5Storage.users, v.role = "provider" → getUser st2 v.id = some v)) ∧
    ((getCommunityBalances c5Storage "c1").map (fun e => e.tokenBalance)).sum = 450 ∧
    (getCommunityBalances c5Storage "c1").length = 2 :=
  ⟨burn_all_totals_and_zeroing c5Storage "coord" "c1" (fun _ => ChainOutcome.ok "0xh")
      ⟨"coord", "c@x", "Coord", "coordinator", some "c1", "0xc", 0⟩
      ⟨"c1", some "0xT"⟩
      rfl rfl rfl rfl (by decide) (by decide) (fun _ => ⟨"0xh", rfl⟩)
      (by decide) (by decide),
   by decide, by decide⟩

end Rete
